import Mathlib

/-!
# Verification of the Kasparro agentic FB analyst core

Shallow embedding, in Lean 4, of the statistical evaluator
(`src/agents/evaluator.py`), the dependency-aware task scheduler
(`Orchestrator._order_tasks`) and the task-execution loop
(`Orchestrator.run`, step 3) of the repository, together with proofs of
the behavioural claims about them.

Modelling conventions:
* Python floats are modelled by `ℚ` (the code performs exact arithmetic on
  the claims' inputs; no claim here depends on rounding).  Series carry no
  NaN in the model, so `np.nanmean`/`np.nanvar` coincide with mean/variance.
* Cohen's d is `(mean b - mean a) / pooled_sd` where `pooled_sd` is a square
  root, which is irrational in general.  The model represents d exactly by
  the pair (sign of the numerator, d²) — see `EffectSizeRepr`.  Every use of
  d in the source is a comparison `|d| ≥ θ` (or `> θ`) with `θ ≥ 0`, which is
  equivalent to `θ² ≤ d²` (resp. `<`), so the representation is faithful and
  stays inside `ℚ`.
* `scipy.stats.ttest_ind` and the numpy random generator used by the
  bootstrap are external libraries, not code of this repository; they enter
  the model as oracle parameters (`StatsOracle`).  The bootstrap's generator
  is seeded with the constant 42 in the source, hence a fixed oracle models
  one fixed seed.  A possible exception raised by the scipy call is the
  throw point of the `try` block of `validate` and is modelled by `Except`.
* The data agent (`DataAgent.get_time_series`) is a collaborator; its
  possible outcomes, as case-analysed by `EvaluatorAgent._prepare_series`,
  are the constructors of `SeriesOutcome`.
-/

namespace Kasparro

/-- Arithmetic mean of a list of rationals: `np.nanmean` on a NaN-free
array.  Lean's `ℚ` division yields `0` for the empty list; every call site
in the model guards emptiness exactly where the source does. -/
def mean (l : List ℚ) : ℚ := l.sum / (l.length : ℚ)

/-- Sample variance with `ddof=1` (`np.nanvar(a, ddof=1)` on a NaN-free
array): `Σ (x - mean)² / (n - 1)`.  Only evaluated under the source's
`na > 1` guard. -/
def sampleVar (l : List ℚ) : ℚ :=
  (l.map (fun x => (x - mean l) ^ 2)).sum / ((l.length : ℚ) - 1)

/-- Exact representation of Cohen's d = `diff / sqrt(pooled_var)`:
`sign` is the sign of d (the sign of `diff`, since `sqrt(pooled_var) > 0`
whenever the division happens) and `sq` is d².  `d = 0` is `⟨0, 0⟩`. -/
structure EffectSizeRepr where
  sign : Int
  sq : ℚ
deriving DecidableEq, Repr

/-- The square of the pooled standard deviation of `cohen_d` (evaluator.py
lines 37–40): each segment's sample variance weighted by `(n-1)`, divided
by `max(1, na + nb - 2)`. -/
def pooled_var (a b : List ℚ) : ℚ :=
  let var_a := if 1 < a.length then sampleVar a else 0
  let var_b := if 1 < b.length then sampleVar b else 0
  (((a.length : ℚ) - 1) * var_a + ((b.length : ℚ) - 1) * var_b) /
    max 1 ((a.length : ℚ) + (b.length : ℚ) - 2)

/-- `cohen_d` (evaluator.py lines 29–44).  `pooled_sd == 0` iff
`pooled_var == 0` because the variances are nonnegative, so the model tests
the variance.  Returns the (sign, square) representation of
`(np.nanmean(b) - np.nanmean(a)) / pooled_sd`. -/
def cohen_d (a b : List ℚ) : EffectSizeRepr :=
  if a.length + b.length ≤ 2 then ⟨0, 0⟩
  else if pooled_var a b = 0 then ⟨0, 0⟩
  else ⟨(mean b - mean a).num.sign, (mean b - mean a) ^ 2 / pooled_var a b⟩

/-- `bootstrap_pvalue` (evaluator.py lines 47–63).  `draw k size` is the
index list produced by `rng.choice(combined, size=combined.size,
replace=True)` at iteration `k`; the generator is `default_rng(42)`, so one
fixed `draw` function models the fixed seed. -/
def bootstrap_pvalue (draw : ℕ → ℕ → List ℕ) (a b : List ℚ) (n_iter : ℕ) : ℚ :=
  let combined := a ++ b
  let n_a := a.length
  let obs_diff := mean b - mean a
  let diffs := (List.range n_iter).map (fun k =>
    let sample := (draw k combined.length).map (fun i => combined.getD i 0)
    mean (sample.drop n_a) - mean (sample.take n_a))
  ((diffs.filter (fun d => |obs_diff| ≤ |d|)).length : ℚ) / (n_iter : ℚ)

/-- Result dictionary of `simple_change_point`. -/
structure ChangePoint where
  best_split : Option ℕ
  relative_change : ℚ
  method_note : String
deriving DecidableEq, Repr

/-- `simple_change_point` (evaluator.py lines 66–92).  The loop runs over
`idx ∈ [window, n - window)`; the NaN guard of the source is vacuous on a
NaN-free series (the empty-slice mean, possible only for `window = 0`, is
`0` in the model and is skipped by the `left_mean = 0` guard exactly as the
NaN is skipped in the source). -/
def simple_change_point (ts_values : List ℚ) (window : ℕ) : ChangePoint :=
  if ts_values.length < 2 * window then
    { best_split := none, relative_change := 0,
      method_note := "timeseries too short for change-point heuristic" }
  else
    let n := ts_values.length
    let step := fun (acc : ℚ × Option ℕ) (idx : ℕ) =>
      let left_mean := mean ((ts_values.drop (idx - window)).take window)
      let right_mean := mean ((ts_values.drop idx).take window)
      if left_mean = 0 then acc
      else
        let rel := (right_mean - left_mean) / left_mean
        if |acc.1| < |rel| then (rel, some idx) else acc
    let best := ((List.range (n - 2 * window)).map (· + window)).foldl step (0, none)
    { best_split := best.2, relative_change := best.1,
      method_note := "rolling-window(" ++ toString window ++ ") heuristic" }

/-- Configuration thresholds of `EvaluatorAgent.__init__`; the default
values are the `DEFAULTS` dictionary of evaluator.py. -/
structure EvalConfig where
  p_value_threshold : ℚ := 1 / 20
  ctr_drop_pct_threshold : ℚ := 20
  min_samples_for_ttest : ℕ := 10
  bootstrap_iters : ℕ := 2000
  rolling_window_days : ℕ := 7
  change_point_relative_threshold : ℚ := 3 / 20

/-- `Hypothesis` (schemas.py lines 33–39).  `initial_confidence` is
declared with `Field(ge=0.0, le=1.0)` in pydantic; the bound is a
hypothesis where a claim needs it, not a type invariant of the model. -/
structure Hypothesis where
  id : String
  hypothesis : String
  driver : Option String
  initial_confidence : ℚ
  supporting_data_points : List String
  required_checks : List String
deriving DecidableEq, Repr

/-- The `validation` dictionary of a `ValidationResult`: either the full
statistics dictionary built on the success path of `validate` (lines
318–329) or the `{"error": msg}` dictionary of the failure paths. -/
inductive Validation where
  | stats (metric method : String) (baseline_mean test_mean relative_change_pct p_value : ℚ)
      (effect_size : EffectSizeRepr) (n_baseline n_test : ℕ) (change_point : ChangePoint)
  | error (msg : String)
deriving DecidableEq, Repr

/-- Evidence block built by `EvaluatorAgent._build_evidence` (lines
120–135).  `ctr_delta_pct` is `None` when the baseline mean is `0`. -/
structure Evidence where
  baseline_ctr : ℚ
  current_ctr : ℚ
  ctr_delta_pct : Option ℚ
  effect_size : EffectSizeRepr
  p_value : ℚ
  n_baseline : ℕ
  n_test : ℕ
  change_point : ChangePoint
deriving DecidableEq, Repr

/-- `ValidationResult` (schemas.py lines 41–49).  `evidence = none` models
the empty dictionary `{}` of the failure paths. -/
structure ValidationResult where
  hypothesis_id : String
  validation : Validation
  evidence : Option Evidence
  impact : String
  confidence_final : ℚ
  status : String
  notes : String
  evidence_refs : List String
deriving DecidableEq, Repr

/-- Python's rendering of the optional driver inside an f-string
(`None` for a missing driver). -/
def driverStr : Option String → String
  | none => "None"
  | some s => s

/-- Outcomes of `data_agent.get_time_series` as case-analysed by
`EvaluatorAgent._prepare_series` (lines 155–191):
* `frame values`: a non-empty DataFrame containing the metric column (also
  the `(df, err)` tuple shape with a falsy `err`); `values` is
  `ts_df[metric].astype(float).values`;
* `emptyFrame`: `ts_df is None or ts_df.empty`;
* `missingMetric`: the metric column is absent;
* `tupleErr msg`: the `(df, err)` tuple shape with a truthy `err`;
* `raises msg`: the provider call raised an exception. -/
inductive SeriesOutcome where
  | frame (values : List ℚ)
  | emptyFrame
  | missingMetric
  | tupleErr (msg : String)
  | raises (msg : String)
deriving DecidableEq, Repr

/-- The data agent, as seen by the evaluator: a function from the campaign
filter (`None` encodes "no filter") and metric name to an outcome. -/
def DataAgentModel := Option String → String → SeriesOutcome

namespace EvaluatorAgent

/-- `EvaluatorAgent._prepare_series` (lines 155–191): maps the provider's
outcome to `(values, error)`, never raising. -/
def prepare_series (data_agent : DataAgentModel) (scope : String) (metric : String) :
    List ℚ × Option String :=
  let campaign := if scope ≠ "" ∧ scope ≠ "all_campaigns" then some scope else none
  match data_agent campaign metric with
  | .frame values => (values, none)
  | .emptyFrame => ([], some "timeseries_empty")
  | .missingMetric => ([], some "metric_missing")
  | .tupleErr msg => ([], some msg)
  | .raises msg => ([], some ("error_preparing_series: " ++ msg))

/-- `EvaluatorAgent._split_baseline_test` (lines 194–197):
`idx = max(1, int(n * 0.7))`; `int` truncates, which is floor for `n ≥ 0`. -/
def split_baseline_test (values : List ℚ) : List ℚ × List ℚ :=
  let idx := max 1 (7 * values.length / 10)
  (values.take idx, values.drop idx)

/-- `EvaluatorAgent._decide_status` (lines 200–219); `|d| ≥ θ` is encoded
as `θ² ≤ d²`. -/
def decide_status (cfg : EvalConfig) (p_value relative_change_pct : ℚ)
    (effect_size : EffectSizeRepr) (n_total : ℕ) : String :=
  if p_value < 1 / 100 ∧ (1 / 2 : ℚ) ^ 2 ≤ effect_size.sq ∧ 30 ≤ n_total then
    "VALIDATED"
  else if p_value < cfg.p_value_threshold ∧
      cfg.ctr_drop_pct_threshold ≤ |relative_change_pct| then
    "VALIDATED"
  else if p_value < cfg.p_value_threshold then
    "INCONCLUSIVE"
  else
    "REFUTED"

/-- `EvaluatorAgent._calibrate_confidence` (lines 222–240); thresholds on
`|d|` are encoded on d². -/
def calibrate_confidence (initial p_value : ℚ) (effect_size : EffectSizeRepr)
    (n_total : ℕ) : ℚ :=
  let conf := initial
  let conf := if p_value < 1 / 100 then conf + 1 / 4
    else if p_value < 1 / 20 then conf + 12 / 100
    else conf - 12 / 100
  let conf := if (8 / 10 : ℚ) ^ 2 ≤ effect_size.sq then conf + 2 / 10
    else if (1 / 2 : ℚ) ^ 2 ≤ effect_size.sq then conf + 1 / 10
    else conf
  let conf := if n_total < 30 then conf - 15 / 100 else conf
  max 0 (min 1 conf)

/-- `EvaluatorAgent._build_evidence` (lines 120–135). -/
def build_evidence (baseline_mean test_mean p_value : ℚ)
    (effect_size : EffectSizeRepr) (change_point : ChangePoint)
    (n_baseline n_test : ℕ) : Evidence :=
  let delta_pct := if baseline_mean = 0 then none
    else some (((test_mean - baseline_mean) / baseline_mean) * 100)
  { baseline_ctr := baseline_mean
    current_ctr := test_mean
    ctr_delta_pct := delta_pct
    effect_size := effect_size
    p_value := p_value
    n_baseline := n_baseline
    n_test := n_test
    change_point := change_point }

/-- `EvaluatorAgent._compute_impact` (lines 137–153); `|d| > θ` is encoded
as `θ² < d²`. -/
def compute_impact (delta_pct : Option ℚ) (effect_size : EffectSizeRepr)
    (p_value : ℚ) : String :=
  match delta_pct with
  | none => "medium"
  | some dp =>
    if 25 < |dp| ∧ (1 / 2 : ℚ) ^ 2 < effect_size.sq ∧ p_value < 1 / 20 then "high"
    else if 10 < |dp| ∧ (3 / 10 : ℚ) ^ 2 < effect_size.sq then "medium"
    else "low"

/-- External statistical dependencies of `validate`:
* `ttest_p a b` is the p-value of `scipy.stats.ttest_ind(a, b,
  equal_var=False, nan_policy="omit")`; the call may raise, hence `Except`
  (it is the only statement of `validate`'s `try` block that can raise);
* `draw` is the resampling index stream of `bootstrap_pvalue`'s
  `default_rng(42)`. -/
structure StatsOracle where
  ttest_p : List ℚ → List ℚ → Except String ℚ
  draw : ℕ → ℕ → List ℕ

/-- Method selection of `validate` (lines 292–298): Welch t-test when both
segments have at least `min_samples_for_ttest` points, bootstrap
otherwise; yields the p-value and the method name. -/
def choose_method (cfg : EvalConfig) (oracle : StatsOracle) (baseline test : List ℚ) :
    Except String (ℚ × String) :=
  if cfg.min_samples_for_ttest ≤ baseline.length ∧
      cfg.min_samples_for_ttest ≤ test.length then
    (oracle.ttest_p baseline test).map (fun p => (p, "t-test"))
  else
    .ok (bootstrap_pvalue oracle.draw baseline test cfg.bootstrap_iters, "bootstrap")

/-- `EvaluatorAgent.validate` (lines 243–365). -/
def validate (cfg : EvalConfig) (oracle : StatsOracle) (hypothesis : Hypothesis)
    (data_agent : DataAgentModel) : ValidationResult :=
  let hyp_id := hypothesis.id
  let driver := hypothesis.driver
  let initial_conf := hypothesis.initial_confidence
  let drv := driverStr driver
  let scope := "all_campaigns"
  let pr := prepare_series data_agent scope "ctr"
  let values := pr.1
  let err := pr.2
  if err.isSome ∨ values.length < 2 then
    { hypothesis_id := hyp_id
      validation := .error (err.getD "too few samples")
      evidence := none
      impact := "low"
      confidence_final := 1 / 5
      status := "INCONCLUSIVE"
      notes := "Insufficient data for evaluation (driver=" ++ drv ++ ")"
      evidence_refs := [] }
  else
    let split := split_baseline_test values
    let baseline := split.1
    let test := split.2
    let n_total := baseline.length + test.length
    match choose_method cfg oracle baseline test with
    | .error e =>
      { hypothesis_id := hyp_id
        validation := .error e
        evidence := none
        impact := "low"
        confidence_final := 1 / 10
        status := "INCONCLUSIVE"
        notes := "Exception during evaluation: " ++ e
        evidence_refs := [] }
    | .ok pm =>
      let p_value := pm.1
      let method := pm.2
      let baseline_mean := if 0 < baseline.length then mean baseline else 0
      let test_mean := if 0 < test.length then mean test else 0
      let relative_change_pct :=
        ((test_mean - baseline_mean) / max (1 / 1000000000) baseline_mean) * 100
      let effect_size := cohen_d baseline test
      let cp := simple_change_point values cfg.rolling_window_days
      let status := decide_status cfg p_value relative_change_pct effect_size n_total
      let final_conf := calibrate_confidence initial_conf p_value effect_size n_total
      let evidence := build_evidence baseline_mean test_mean p_value effect_size cp
        baseline.length test.length
      let impact := compute_impact evidence.ctr_delta_pct effect_size p_value
      { hypothesis_id := hyp_id
        validation := .stats "ctr" method baseline_mean test_mean relative_change_pct
          p_value effect_size baseline.length test.length cp
        evidence := some evidence
        impact := impact
        confidence_final := final_conf
        status := status
        notes := "Evaluated driver=" ++ drv ++ " using " ++ method
        evidence_refs := [] }

end EvaluatorAgent

/-! ## Task scheduler (`Orchestrator._order_tasks`, orchestrator.py lines 82–113) -/

/-- A task object as the orchestrator reads it (all accesses go through
`getattr` with defaults, so only these five attributes matter).  The wired
pipeline instantiates it from `TaskSchema` via `toOTask` below. -/
structure OTask where
  id : String
  name : String
  scope : String
  priority : Int
  depends_on : List String
deriving DecidableEq, Repr

/-- `TaskSchema` (schemas.py lines 20–26).  It declares no `depends_on`
field; the value of `expected_schema` never influences the core. -/
structure TaskSchema where
  id : String
  type : String
  target : String
  scope : String
  priority : Int
  expected_schema : List (String × String)
deriving DecidableEq, Repr

/-- A `TaskSchema` as seen by the orchestrator: `getattr(t, "name", "")`
is `""` and `getattr(t, "depends_on", []) or []` is `[]` because the
pydantic model has neither field. -/
def toOTask (t : TaskSchema) : OTask :=
  { id := t.id, name := "", scope := t.scope, priority := t.priority, depends_on := [] }

namespace Orchestrator

/-- The id list of a task list. -/
def ids (tasks : List OTask) : List String := tasks.map OTask.id

/-- Python's comparison on the sort key `(priority, id)`:
`a ≤ b` in lexicographic order. -/
def taskLe (a b : OTask) : Bool :=
  decide (a.priority < b.priority) ||
    (a.priority == b.priority && (decide (a.id < b.id) || a.id == b.id))

/-- Insert into a sorted list before the first element `y` with `le x y`;
combined with `sortByLe` this is a stable insertion sort, the behaviour of
Python's stable `sorted`. -/
def insertSorted (le : α → α → Bool) (x : α) : List α → List α
  | [] => [x]
  | y :: ys => if le x y then x :: y :: ys else y :: insertSorted le x ys

/-- Stable sort modelling `sorted(tasks, key=lambda x: (priority, id))`. -/
def sortByLe (le : α → α → Bool) : List α → List α
  | [] => []
  | x :: xs => insertSorted le x (sortByLe le xs)

/-- `id_to_task[i]`: under the unique-ids run invariant the dict
comprehension `{t.id: t for t in tasks}` is exactly first-match lookup. -/
def idToTask (tasks : List OTask) (i : String) : Option OTask :=
  tasks.find? (fun t => t.id == i)

/-- `deps.get(node_id, [])`: the declared dependencies of the task with id
`i` (the `set(...)` conversion only removes duplicates, and a duplicate
dependency is a no-op for the visitation below, so the list is kept). -/
def depsOf (tasks : List OTask) (i : String) : List String :=
  match idToTask tasks i with
  | some t => t.depends_on
  | none => []

/-- Mutable state of `_order_tasks`: the output list, the `visited` and
`temp` sets, plus the warnings emitted on cycle detection (the model of
`self.logger.warning`). -/
structure DfsState where
  ordered : List OTask
  visited : List String
  temp : List String
  warnings : List String
deriving DecidableEq, Repr

/-- The recursive closure `visit(node_id)` of `_order_tasks`.  The inner
fold is `for d in deps.get(node_id, []): if d in id_to_task: visit(d)`.
Python bounds recursion only by the strict growth of `temp`; the model
passes explicit fuel, one unit per nesting level, always called with
enough of it (each call restores `temp`, so the nesting depth never
exceeds the number of distinct ids and `tasks.length + 1` fuel is never
exhausted on the paths the claims touch; `fuel = 0` returns the state
unchanged).  When `node_id` has no task (impossible for the ids actually
visited) only `visited` is updated. -/
def visit (tasks : List OTask) : ℕ → String → DfsState → DfsState
  | 0, _, s => s
  | fuel + 1, node_id, s =>
    if node_id ∈ s.visited then s
    else if node_id ∈ s.temp then
      { s with warnings := s.warnings ++
          ["Cycle detected in task dependencies at " ++ node_id ++ "; ignoring cyclic edge"] }
    else
      let s1 : DfsState := { s with temp := node_id :: s.temp }
      let s2 := (depsOf tasks node_id).foldl
        (fun st d => if d ∈ ids tasks then visit tasks fuel d st else st) s1
      let s3 : DfsState := { s2 with temp := s2.temp.erase node_id }
      match idToTask tasks node_id with
      | some t => { s3 with visited := node_id :: s3.visited, ordered := s3.ordered ++ [t] }
      | none => { s3 with visited := node_id :: s3.visited }

/-- `_order_tasks` up to and including its two loops, returning the full
final state (ordered output plus cycle warnings). -/
def order_tasks_state (tasks : List OTask) : DfsState :=
  let sorted_tasks := sortByLe taskLe tasks
  let s := sorted_tasks.foldl
    (fun st t => visit tasks (tasks.length + 1) t.id st) ⟨[], [], [], []⟩
  sorted_tasks.foldl
    (fun st t => if t ∈ st.ordered then st else { st with ordered := st.ordered ++ [t] }) s

/-- `Orchestrator._order_tasks`: the returned ordering. -/
def order_tasks (tasks : List OTask) : List OTask :=
  (order_tasks_state tasks).ordered

/-! ## Task execution loop (`Orchestrator.run`, step 3, lines 168–232) -/

/-- One entry of `run_meta["errors"]`. -/
structure LedgerError where
  stage : String
  task_id : Option String
  hypothesis_id : Option String
  error : String
deriving DecidableEq, Repr

/-- One entry of `run_meta["tasks_executed"]`. -/
structure ExecutedTask where
  task_id : String
  name : String
  scope : String
  priority : Int
deriving DecidableEq, Repr

/-- The dictionary `vdict` appended to `insights_results`: either the
`.dict()` of an evaluator `ValidationResult`, or the five-key dictionary
synthesized at lines 198–204 when the evaluator call raised (that
dictionary has no `evidence`/`impact` keys, hence the tagged union). -/
inductive VDict where
  | fromResult (r : ValidationResult)
  | synthesized (hypothesis_id : String) (errMsg : String)
deriving DecidableEq, Repr

/-- `vdict.get("status", "")`. -/
def VDict.status : VDict → String
  | .fromResult r => r.status
  | .synthesized _ _ => "INCONCLUSIVE"

/-- `vdict.get("confidence_final", ...)`. -/
def VDict.confidence_final : VDict → ℚ
  | .fromResult r => r.confidence_final
  | .synthesized _ _ => 0

/-- An element of `insights_results`: the `vdict` with the hypothesis
metadata attached at lines 209–211. -/
structure InsightEntry where
  core : VDict
  hypothesis_text : String
  driver : Option String
  supporting_data_points : List String
deriving DecidableEq, Repr

/-- The collaborators the run loop calls, each modelled as a function
that either returns or raises (`Except`):
* `generate task` is `insight_agent.generate(data_summary, task.dict())`
  for the run's fixed data summary;
* `validate hyp` is `evaluator.validate(hyp, data_agent)` as invoked by
  the defensive layer of `run` (the theorems on `EvaluatorAgent.validate`
  show the real evaluator never raises; the orchestrator defends anyway);
* `get_creatives_sample` is `data_agent.get_creatives_sample(n=20)`;
* `generate_for_campaign scope sample n` is the creative agent call.
`γ` is the type of creative records, opaque to the loop. -/
structure Collaborators (γ : Type) where
  generate : OTask → Except String (List Hypothesis)
  validate : Hypothesis → Except String ValidationResult
  get_creatives_sample : Except String (List γ)
  generate_for_campaign : String → List γ → ℕ → Except String (List γ)

/-- Accumulated run state.  `creative_calls` is a ghost trace, recording
`(campaign argument, n)` for each `generate_for_campaign` invocation so
that invocation counts are expressible; it influences nothing else. -/
structure RunState (γ : Type) where
  insights_results : List InsightEntry
  creatives_results : List γ
  errors : List LedgerError
  tasks_executed : List ExecutedTask
  creative_calls : List (String × ℕ)

/-- The empty initial run state. -/
def RunState.empty : RunState γ := ⟨[], [], [], [], []⟩

/-- Python's `str.upper()` on a string (the status strings involved are
ASCII).  Defined by a direct character map so that it evaluates inside the
kernel. -/
def strUpper (s : String) : String := ⟨s.data.map Char.toUpper⟩

/-- `campaign_scope or "campaign_1"` with
`campaign_scope = task.scope if task.scope and task.scope != "all_campaigns"
else None` (line 224): the falsy empty string also falls back. -/
def creative_scope_arg (task : OTask) : String :=
  if task.scope ≠ "" ∧ task.scope ≠ "all_campaigns" then task.scope else "campaign_1"

/-- The creative-generation block (lines 217–232): fires only on
`status == "VALIDATED"` (after `str(...).upper()`) and
`driver == "creative_fatigue"`; any exception inside the block is caught
and recorded as a `creative_generate` ledger entry. -/
def process_creatives (C : Collaborators γ) (task : OTask) (hyp : Hypothesis)
    (vstatus : String) (vdriver : Option String) (s : RunState γ) : RunState γ :=
  if strUpper vstatus = "VALIDATED" ∧ vdriver = some "creative_fatigue" then
    match C.get_creatives_sample with
    | .error e =>
      { s with errors := s.errors ++
          [⟨"creative_generate", some task.id, some hyp.id, e⟩] }
    | .ok sample =>
      let arg := creative_scope_arg task
      let s1 : RunState γ := { s with creative_calls := s.creative_calls ++ [(arg, 4)] }
      match C.generate_for_campaign arg sample 4 with
      | .ok cands => { s1 with creatives_results := s1.creatives_results ++ cands }
      | .error e =>
        { s1 with errors := s1.errors ++
            [⟨"creative_generate", some task.id, some hyp.id, e⟩] }
  else s

/-- The per-hypothesis body (lines 189–232): evaluate defensively,
normalize, attach metadata, append, then maybe generate creatives.  The
driver used by the creative condition is `vdict.get("driver") or
getattr(hyp, "driver", None)`, and `vdict["driver"]` was just set to
`getattr(hyp, "driver", None)`, so it is the hypothesis's driver either
way. -/
def process_hypothesis (C : Collaborators γ) (task : OTask) (hyp : Hypothesis)
    (s : RunState γ) : RunState γ :=
  let hyp_id := hyp.id
  let step : VDict × RunState γ :=
    match C.validate hyp with
    | .ok v => (VDict.fromResult v, s)
    | .error e =>
      (VDict.synthesized hyp_id e,
        { s with errors := s.errors ++
            [⟨"evaluator.validate", some task.id, some hyp_id, e⟩] })
  let vdict := step.1
  let s1 := step.2
  let entry : InsightEntry :=
    { core := vdict, hypothesis_text := hyp.hypothesis,
      driver := hyp.driver, supporting_data_points := hyp.supporting_data_points }
  let s2 : RunState γ := { s1 with insights_results := s1.insights_results ++ [entry] }
  process_creatives C task hyp vdict.status hyp.driver s2

/-- The per-task body (lines 168–187): record the executed task, generate
hypotheses (a failure is logged and yields zero hypotheses), and process
each hypothesis in order. -/
def process_task (C : Collaborators γ) (s : RunState γ) (task : OTask) : RunState γ :=
  let s0 : RunState γ := { s with tasks_executed := s.tasks_executed ++
      [⟨task.id, task.name, task.scope, task.priority⟩] }
  match C.generate task with
  | .error e =>
    { s0 with errors := s0.errors ++ [⟨"insight_generate", some task.id, none, e⟩] }
  | .ok hypotheses => hypotheses.foldl (fun st h => process_hypothesis C task h st) s0

/-- Step 3 of `Orchestrator.run`: order the tasks and execute each in
order, accumulating results and the ledger. -/
def run_loop (C : Collaborators γ) (tasks : List OTask) : RunState γ :=
  (order_tasks tasks).foldl (process_task C) RunState.empty

/-! ### Pure per-unit contributions, used to state failure isolation -/

/-- The insight entry contributed by one hypothesis (independent of the
task and of all accumulated state). -/
def hyp_insight (C : Collaborators γ) (hyp : Hypothesis) : InsightEntry :=
  { core :=
      match C.validate hyp with
      | .ok v => VDict.fromResult v
      | .error e => VDict.synthesized hyp.id e
    hypothesis_text := hyp.hypothesis
    driver := hyp.driver
    supporting_data_points := hyp.supporting_data_points }

/-- The insight entries contributed by one task. -/
def task_insights (C : Collaborators γ) (task : OTask) : List InsightEntry :=
  match C.generate task with
  | .error _ => []
  | .ok hypotheses => hypotheses.map (hyp_insight C)

/-- The creative-generator invocations contributed by one hypothesis. -/
def hyp_creative_calls (C : Collaborators γ) (task : OTask) (hyp : Hypothesis) :
    List (String × ℕ) :=
  if strUpper (hyp_insight C hyp).core.status = "VALIDATED" ∧
      hyp.driver = some "creative_fatigue" then
    match C.get_creatives_sample with
    | .error _ => []
    | .ok _ => [(creative_scope_arg task, 4)]
  else []

/-- The creative-generator invocations contributed by one task. -/
def task_creative_calls (C : Collaborators γ) (task : OTask) : List (String × ℕ) :=
  match C.generate task with
  | .error _ => []
  | .ok hypotheses => hypotheses.flatMap (hyp_creative_calls C task)

end Orchestrator

/-! ## Supporting lemmas for the evaluator -/

theorem sampleVar_nonneg (l : List ℚ) (h : 1 < l.length) : 0 ≤ sampleVar l := by
  unfold sampleVar
  apply div_nonneg
  · exact List.sum_nonneg (by
      intro x hx
      obtain ⟨y, _, rfl⟩ := List.mem_map.1 hx
      positivity)
  · have : (2 : ℚ) ≤ (l.length : ℚ) := by exact_mod_cast h
    linarith

theorem pooled_var_nonneg (a b : List ℚ) : 0 ≤ pooled_var a b := by
  unfold pooled_var
  dsimp only
  apply div_nonneg
  · apply add_nonneg
    · by_cases h : 1 < a.length
      · rw [if_pos h]
        apply mul_nonneg
        · have : (2 : ℚ) ≤ (a.length : ℚ) := by exact_mod_cast h
          linarith
        · exact sampleVar_nonneg a h
      · rw [if_neg h, mul_zero]
    · by_cases h : 1 < b.length
      · rw [if_pos h]
        apply mul_nonneg
        · have : (2 : ℚ) ≤ (b.length : ℚ) := by exact_mod_cast h
          linarith
        · exact sampleVar_nonneg b h
      · rw [if_neg h, mul_zero]
  · exact le_trans zero_le_one (le_max_left _ _)

theorem sampleVar_replicate (n : ℕ) (c : ℚ) : sampleVar (List.replicate n c) = 0 := by
  unfold sampleVar mean
  rcases Nat.eq_zero_or_pos n with h | h
  · subst h; simp
  · have hlen : (List.replicate n c).length = n := List.length_replicate n c
    have hsum : (List.replicate n c).sum = (n : ℚ) * c := by
      rw [List.sum_replicate]; simp [nsmul_eq_mul]
    have hmean : (List.replicate n c).sum / ((List.replicate n c).length : ℚ) = c := by
      rw [hsum, hlen]
      field_simp
    rw [List.map_congr_left (fun x hx => by
      rw [List.eq_of_mem_replicate hx, hmean, sub_self, zero_pow (two_ne_zero)])]
    simp

theorem pooled_var_replicate (n₁ n₂ : ℕ) (c₁ c₂ : ℚ) :
    pooled_var (List.replicate n₁ c₁) (List.replicate n₂ c₂) = 0 := by
  unfold pooled_var
  dsimp only
  rw [sampleVar_replicate, sampleVar_replicate]
  simp

theorem calibrate_confidence_mem_unit (initial p : ℚ) (e : EffectSizeRepr) (n : ℕ) :
    0 ≤ EvaluatorAgent.calibrate_confidence initial p e n ∧
      EvaluatorAgent.calibrate_confidence initial p e n ≤ 1 := by
  unfold EvaluatorAgent.calibrate_confidence
  exact ⟨le_max_left 0 _, max_le (by norm_num) (min_le_left _ _)⟩

theorem prepare_series_all_campaigns (a : DataAgentModel) (metric : String) :
    EvaluatorAgent.prepare_series a "all_campaigns" metric =
      match a none metric with
      | .frame values => (values, none)
      | .emptyFrame => ([], some "timeseries_empty")
      | .missingMetric => ([], some "metric_missing")
      | .tupleErr msg => ([], some msg)
      | .raises msg => ([], some ("error_preparing_series: " ++ msg)) := by
  unfold EvaluatorAgent.prepare_series
  have hnone : (if ("all_campaigns" ≠ "" ∧ "all_campaigns" ≠ "all_campaigns")
      then some "all_campaigns" else (none : Option String)) = none := by
    rw [if_neg]; exact fun hcon => hcon.2 rfl
  rw [hnone]

/-! ## Claims about the evaluator -/

/-- **C10** (noninterference).  `validate` fetches the metric `"ctr"` with
campaign filter `None` unconditionally: its output depends on the data
agent only through the agent's answer at `(None, "ctr")`; and two
hypotheses agreeing on `id`, `driver` and `initial_confidence` receive
identical `ValidationResult`s — the hypothesis text,
`supporting_data_points` and `required_checks` have no influence. -/
theorem validate_noninterference :
    (∀ (cfg : EvalConfig) (oracle : EvaluatorAgent.StatsOracle) (agent : DataAgentModel)
        (h₁ h₂ : Hypothesis), h₁.id = h₂.id → h₁.driver = h₂.driver →
        h₁.initial_confidence = h₂.initial_confidence →
        EvaluatorAgent.validate cfg oracle h₁ agent =
          EvaluatorAgent.validate cfg oracle h₂ agent) ∧
    (∀ (cfg : EvalConfig) (oracle : EvaluatorAgent.StatsOracle) (h : Hypothesis)
        (a₁ a₂ : DataAgentModel), a₁ none "ctr" = a₂ none "ctr" →
        EvaluatorAgent.validate cfg oracle h a₁ =
          EvaluatorAgent.validate cfg oracle h a₂) := by
  constructor
  · intro cfg oracle agent h₁ h₂ hid hdrv hconf
    obtain ⟨i₁, x₁, d₁, c₁, s₁, r₁⟩ := h₁
    obtain ⟨i₂, x₂, d₂, c₂, s₂, r₂⟩ := h₂
    cases hid; cases hdrv; cases hconf
    rfl
  · intro cfg oracle h a₁ a₂ hag
    have hp : EvaluatorAgent.prepare_series a₁ "all_campaigns" "ctr"
        = EvaluatorAgent.prepare_series a₂ "all_campaigns" "ctr" := by
      rw [prepare_series_all_campaigns, prepare_series_all_campaigns, hag]
    unfold EvaluatorAgent.validate
    dsimp only
    rw [hp]

/-- Witness for `validate_noninterference` at a concrete input. -/
theorem validate_noninterference_witness :
    EvaluatorAgent.validate {} ⟨fun _ _ => .ok 1, fun _ _ => []⟩
        ⟨"h1", "ctr dropped", some "creative_fatigue", 1/2, ["p1"], ["ctr"]⟩
        (fun _ _ => .emptyFrame) =
      EvaluatorAgent.validate {} ⟨fun _ _ => .ok 1, fun _ _ => []⟩
        ⟨"h1", "roas shifted", some "creative_fatigue", 1/2, [], []⟩
        (fun _ _ => .emptyFrame) :=
  validate_noninterference.1 {} ⟨fun _ _ => .ok 1, fun _ _ => []⟩
    (fun _ _ => .emptyFrame)
    ⟨"h1", "ctr dropped", some "creative_fatigue", 1/2, ["p1"], ["ctr"]⟩
    ⟨"h1", "roas shifted", some "creative_fatigue", 1/2, [], []⟩ rfl rfl rfl

/-- **C1** (amended).  `validate` is a total function (it never propagates
an exception — every path below returns a `ValidationResult`) and it
preserves the hypothesis id on every path.  If the fetched series carries
a provider error or has fewer than 2 points, it returns exactly the
`INCONCLUSIVE` result with `confidence_final = 0.2`, empty evidence and a
note recording the driver; if the statistical computation raises, it
returns exactly the `INCONCLUSIVE` result with `confidence_final = 0.1`
and `validation = error msg`.  (The exception-path result carries no
driver: `ValidationResult` has no driver field and that path's notes do
not mention it — see the counterexample.) -/
theorem validate_failure_paths :
    (∀ (cfg : EvalConfig) (oracle : EvaluatorAgent.StatsOracle) (hyp : Hypothesis)
        (agent : DataAgentModel),
        (EvaluatorAgent.validate cfg oracle hyp agent).hypothesis_id = hyp.id) ∧
    (∀ (cfg : EvalConfig) (oracle : EvaluatorAgent.StatsOracle) (hyp : Hypothesis)
        (agent : DataAgentModel),
        (EvaluatorAgent.prepare_series agent "all_campaigns" "ctr").2.isSome ∨
          (EvaluatorAgent.prepare_series agent "all_campaigns" "ctr").1.length < 2 →
        EvaluatorAgent.validate cfg oracle hyp agent =
          { hypothesis_id := hyp.id
            validation := .error
              ((EvaluatorAgent.prepare_series agent "all_campaigns" "ctr").2.getD
                "too few samples")
            evidence := none
            impact := "low"
            confidence_final := 1 / 5
            status := "INCONCLUSIVE"
            notes := "Insufficient data for evaluation (driver=" ++ driverStr hyp.driver ++ ")"
            evidence_refs := [] }) ∧
    (∀ (cfg : EvalConfig) (oracle : EvaluatorAgent.StatsOracle) (hyp : Hypothesis)
        (agent : DataAgentModel) (e : String),
        (EvaluatorAgent.prepare_series agent "all_campaigns" "ctr").2 = none →
        2 ≤ (EvaluatorAgent.prepare_series agent "all_campaigns" "ctr").1.length →
        EvaluatorAgent.choose_method cfg oracle
          (EvaluatorAgent.split_baseline_test
            (EvaluatorAgent.prepare_series agent "all_campaigns" "ctr").1).1
          (EvaluatorAgent.split_baseline_test
            (EvaluatorAgent.prepare_series agent "all_campaigns" "ctr").1).2 = .error e →
        EvaluatorAgent.validate cfg oracle hyp agent =
          { hypothesis_id := hyp.id
            validation := .error e
            evidence := none
            impact := "low"
            confidence_final := 1 / 10
            status := "INCONCLUSIVE"
            notes := "Exception during evaluation: " ++ e
            evidence_refs := [] }) := by
  refine ⟨?_, ?_, ?_⟩
  · intro cfg oracle hyp agent
    unfold EvaluatorAgent.validate
    dsimp only
    split
    · rfl
    · split <;> rfl
  · intro cfg oracle hyp agent hcnd
    unfold EvaluatorAgent.validate
    dsimp only
    rw [if_pos hcnd]
  · intro cfg oracle hyp agent e hnone hlen hm
    unfold EvaluatorAgent.validate
    dsimp only
    rw [if_neg (by
      rw [hnone]
      simp only [Option.isSome_none, Bool.false_eq_true, false_or, not_lt]
      exact hlen)]
    rw [hm]

/-- Counterexample to the literal reading of **C1**: on the
exception path the returned result does not preserve (or mention) the
driver — two hypotheses that differ only in their driver produce the very
same fallback result. -/
theorem validate_exception_ignores_driver :
    EvaluatorAgent.validate { min_samples_for_ttest := 1 }
        ⟨fun _ _ => .error "boom", fun _ _ => []⟩
        ⟨"h1", "ctr dropped", some "creative_fatigue", 1/2, [], []⟩
        (fun _ _ => .frame [1, 2]) =
      EvaluatorAgent.validate { min_samples_for_ttest := 1 }
        ⟨fun _ _ => .error "boom", fun _ _ => []⟩
        ⟨"h1", "ctr dropped", some "audience_saturation", 1/2, [], []⟩
        (fun _ _ => .frame [1, 2]) ∧
    (EvaluatorAgent.validate { min_samples_for_ttest := 1 }
        ⟨fun _ _ => .error "boom", fun _ _ => []⟩
        ⟨"h1", "ctr dropped", some "creative_fatigue", 1/2, [], []⟩
        (fun _ _ => .frame [1, 2])).validation = .error "boom" ∧
    (some "creative_fatigue" : Option String) ≠ some "audience_saturation" := by
  refine ⟨rfl, rfl, by decide⟩

/-- Witness for `validate_failure_paths` at a concrete input: an empty
frame takes the insufficient-data path. -/
theorem validate_failure_paths_witness :
    EvaluatorAgent.validate {} ⟨fun _ _ => .ok 1, fun _ _ => []⟩
        ⟨"h9", "x", some "creative_fatigue", 1/2, [], []⟩ (fun _ _ => .emptyFrame) =
      { hypothesis_id := "h9"
        validation := .error "timeseries_empty"
        evidence := none
        impact := "low"
        confidence_final := 1 / 5
        status := "INCONCLUSIVE"
        notes := "Insufficient data for evaluation (driver=creative_fatigue)"
        evidence_refs := [] } :=
  validate_failure_paths.2.1 {} ⟨fun _ _ => .ok 1, fun _ _ => []⟩
    ⟨"h9", "x", some "creative_fatigue", 1/2, [], []⟩ (fun _ _ => .emptyFrame)
    (Or.inl rfl)

/-- **C6**.  The effect size is Cohen's d with `(n-1)`-weighted pooled
standard deviation: away from the degenerate cases, `d² · pooled_var =
(mean_test − mean_baseline)²` with the sign of `mean_test − mean_baseline`
(the sign-and-square encoding of `d = (mean_test − mean_baseline) /
pooled_sd`), and whenever the pooled standard deviation is zero (in
particular for constant baseline and test segments) or fewer than 3
samples exist, the result is exactly `0` — the function is total, so no
division by zero, NaN, or exception ever escapes. -/
theorem cohen_d_spec :
    (∀ a b : List ℚ,
      0 ≤ pooled_var a b ∧
      (pooled_var a b = 0 → cohen_d a b = ⟨0, 0⟩) ∧
      (a.length + b.length ≤ 2 → cohen_d a b = ⟨0, 0⟩) ∧
      (2 < a.length + b.length → pooled_var a b ≠ 0 →
        (cohen_d a b).sq * pooled_var a b = (mean b - mean a) ^ 2 ∧
        (cohen_d a b).sign = (mean b - mean a).num.sign)) ∧
    (∀ (n₁ n₂ : ℕ) (c₁ c₂ : ℚ),
      cohen_d (List.replicate n₁ c₁) (List.replicate n₂ c₂) = ⟨0, 0⟩) := by
  constructor
  · intro a b
    refine ⟨pooled_var_nonneg a b, ?_, ?_, ?_⟩
    · intro hpv
      unfold cohen_d
      split <;> simp_all
    · intro hlen
      unfold cohen_d
      rw [if_pos hlen]
    · intro hlen hpv
      unfold cohen_d
      rw [if_neg (by omega), if_neg hpv]
      exact ⟨div_mul_cancel₀ _ hpv, rfl⟩
  · intro n₁ n₂ c₁ c₂
    unfold cohen_d
    split <;> simp_all [pooled_var_replicate]

/-- Witness for `cohen_d_spec` at a concrete input. -/
theorem cohen_d_spec_witness :
    (cohen_d [0, 1] [2, 5]).sq * pooled_var [0, 1] [2, 5] =
        (mean [2, 5] - mean [0, 1]) ^ 2 ∧
      (cohen_d [0, 1] [2, 5]).sign = (mean [2, 5] - mean [0, 1]).num.sign :=
  (cohen_d_spec.1 [0, 1] [2, 5]).2.2.2 (by decide)
    (by
      unfold pooled_var sampleVar mean
      norm_num)

/-- **C5**.  `confidence_final` always lies in `[0, 1]`, and on the
successful path it is the calibration of `initial_confidence`: `+0.25` if
`p < 0.01`, else `+0.12` if `p < 0.05`, else `−0.12`; then `+0.2` if
`|d| ≥ 0.8` (`d² ≥ 0.64`), else `+0.1` if `|d| ≥ 0.5`; then `−0.15` if
the total sample count is below 30; clipped to `[0, 1]`. -/
theorem confidence_final_calibration :
    (∀ (cfg : EvalConfig) (oracle : EvaluatorAgent.StatsOracle) (hyp : Hypothesis)
        (agent : DataAgentModel),
        0 ≤ (EvaluatorAgent.validate cfg oracle hyp agent).confidence_final ∧
          (EvaluatorAgent.validate cfg oracle hyp agent).confidence_final ≤ 1) ∧
    (∀ (initial p : ℚ) (e : EffectSizeRepr) (n : ℕ),
        EvaluatorAgent.calibrate_confidence initial p e n =
          max 0 (min 1 (initial
            + (if p < 1/100 then 1/4 else if p < 1/20 then 12/100 else -(12/100))
            + (if (8/10 : ℚ)^2 ≤ e.sq then 2/10
               else if (1/2 : ℚ)^2 ≤ e.sq then 1/10 else 0)
            - (if n < 30 then 15/100 else 0)))) ∧
    (∀ (cfg : EvalConfig) (oracle : EvaluatorAgent.StatsOracle) (hyp : Hypothesis)
        (agent : DataAgentModel) (values : List ℚ) (pm : ℚ × String),
        EvaluatorAgent.prepare_series agent "all_campaigns" "ctr" = (values, none) →
        2 ≤ values.length →
        EvaluatorAgent.choose_method cfg oracle
          (EvaluatorAgent.split_baseline_test values).1
          (EvaluatorAgent.split_baseline_test values).2 = .ok pm →
        (EvaluatorAgent.validate cfg oracle hyp agent).confidence_final =
          EvaluatorAgent.calibrate_confidence hyp.initial_confidence pm.1
            (cohen_d (EvaluatorAgent.split_baseline_test values).1
              (EvaluatorAgent.split_baseline_test values).2)
            ((EvaluatorAgent.split_baseline_test values).1.length
              + (EvaluatorAgent.split_baseline_test values).2.length)) := by
  refine ⟨?_, ?_, ?_⟩
  · intro cfg oracle hyp agent
    unfold EvaluatorAgent.validate
    dsimp only
    split
    · constructor <;> norm_num
    · split
      · constructor <;> norm_num
      · exact calibrate_confidence_mem_unit _ _ _ _
  · intro initial p e n
    unfold EvaluatorAgent.calibrate_confidence
    dsimp only
    split_ifs <;> ring_nf
  · intro cfg oracle hyp agent values pm hpr hlen hm
    unfold EvaluatorAgent.validate
    dsimp only
    rw [hpr]
    dsimp only
    rw [if_neg (by
      simp only [Option.isSome_none, Bool.false_eq_true, false_or, not_lt]
      exact hlen)]
    rw [hm]

/-- Witness for `confidence_final_calibration` at a concrete input (the
bootstrap branch with zero iterations, so the p-value evaluates). -/
theorem confidence_final_calibration_witness :
    (EvaluatorAgent.validate { bootstrap_iters := 0 } ⟨fun _ _ => .ok 1, fun _ _ => []⟩
        ⟨"h2", "x", none, 1/2, [], []⟩ (fun _ _ => .frame [1, 2, 3])).confidence_final =
      EvaluatorAgent.calibrate_confidence (1/2)
        (bootstrap_pvalue (fun _ _ => []) [1, 2] [3] 0) (cohen_d [1, 2] [3]) 3 :=
  confidence_final_calibration.2.2 { bootstrap_iters := 0 }
    ⟨fun _ _ => .ok 1, fun _ _ => []⟩ ⟨"h2", "x", none, 1/2, [], []⟩
    (fun _ _ => .frame [1, 2, 3]) [1, 2, 3]
    (bootstrap_pvalue (fun _ _ => []) [1, 2] [3] 0, "bootstrap") rfl (by decide) rfl

/-! ## Run-loop decomposition lemmas -/

namespace Orchestrator

/-- The per-hypothesis ledger contribution: the `evaluator.validate` entry
when the evaluator call raised, then the `creative_generate` entry when
the creative block raised. -/
def hyp_ledger (C : Collaborators γ) (task : OTask) (hyp : Hypothesis) : List LedgerError :=
  (match C.validate hyp with
   | .ok _ => []
   | .error e => [⟨"evaluator.validate", some task.id, some hyp.id, e⟩]) ++
  (if strUpper (hyp_insight C hyp).core.status = "VALIDATED" ∧
      hyp.driver = some "creative_fatigue" then
    match C.get_creatives_sample with
    | .error e => [⟨"creative_generate", some task.id, some hyp.id, e⟩]
    | .ok sample =>
      match C.generate_for_campaign (creative_scope_arg task) sample 4 with
      | .ok _ => []
      | .error e => [⟨"creative_generate", some task.id, some hyp.id, e⟩]
  else [])

/-- The per-hypothesis creative records contribution. -/
def hyp_creatives (C : Collaborators γ) (task : OTask) (hyp : Hypothesis) : List γ :=
  if strUpper (hyp_insight C hyp).core.status = "VALIDATED" ∧
      hyp.driver = some "creative_fatigue" then
    match C.get_creatives_sample with
    | .error _ => []
    | .ok sample =>
      match C.generate_for_campaign (creative_scope_arg task) sample 4 with
      | .ok cands => cands
      | .error _ => []
  else []

/-- The per-task ledger contribution. -/
def task_ledger (C : Collaborators γ) (task : OTask) : List LedgerError :=
  match C.generate task with
  | .error e => [⟨"insight_generate", some task.id, none, e⟩]
  | .ok hypotheses => hypotheses.flatMap (hyp_ledger C task)

/-- The per-task creative records contribution. -/
def task_creatives (C : Collaborators γ) (task : OTask) : List γ :=
  match C.generate task with
  | .error _ => []
  | .ok hypotheses => hypotheses.flatMap (hyp_creatives C task)

/-- Fieldwise concatenation of run states. -/
def RunState.append (s t : RunState γ) : RunState γ :=
  ⟨s.insights_results ++ t.insights_results, s.creatives_results ++ t.creatives_results,
    s.errors ++ t.errors, s.tasks_executed ++ t.tasks_executed,
    s.creative_calls ++ t.creative_calls⟩

theorem RunState.append_empty (s : RunState γ) : s.append RunState.empty = s := by
  cases s; simp [RunState.append, RunState.empty]

theorem RunState.append_assoc (s t u : RunState γ) :
    (s.append t).append u = s.append (t.append u) := by
  cases s; cases t; cases u; simp [RunState.append]

theorem process_creatives_delta (C : Collaborators γ) (task : OTask) (hyp : Hypothesis)
    (vstatus : String) (vdriver : Option String) (s : RunState γ) :
    process_creatives C task hyp vstatus vdriver s =
      s.append (process_creatives C task hyp vstatus vdriver RunState.empty) := by
  unfold process_creatives
  by_cases hc : strUpper vstatus = "VALIDATED" ∧ vdriver = some "creative_fatigue"
  · rw [if_pos hc, if_pos hc]
    cases hs : C.get_creatives_sample with
    | error e => cases s; simp [RunState.append, RunState.empty]
    | ok sample =>
      cases hg : C.generate_for_campaign (creative_scope_arg task) sample 4 with
      | ok cands => cases s; simp [hg, RunState.append, RunState.empty]
      | error e => cases s; simp [hg, RunState.append, RunState.empty]
  · rw [if_neg hc, if_neg hc]
    cases s; simp [RunState.append, RunState.empty]

theorem process_hypothesis_delta (C : Collaborators γ) (task : OTask) (hyp : Hypothesis)
    (s : RunState γ) :
    process_hypothesis C task hyp s =
      s.append (process_hypothesis C task hyp RunState.empty) := by
  unfold process_hypothesis
  cases hv : C.validate hyp with
  | ok v =>
    dsimp only
    rw [process_creatives_delta C task hyp _ _
      { s with insights_results := s.insights_results ++ _ }]
    rw [process_creatives_delta C task hyp _ _
      { RunState.empty with insights_results := RunState.empty.insights_results ++ _ }]
    rw [← RunState.append_assoc]
    congr 1
    cases s; simp [RunState.append, RunState.empty]
  | error e =>
    dsimp only
    rw [process_creatives_delta C task hyp _ _
      { s with
        errors := s.errors ++ _,
        insights_results := s.insights_results ++ _ }]
    rw [process_creatives_delta C task hyp _ _
      { RunState.empty with
        errors := RunState.empty.errors ++ _,
        insights_results := RunState.empty.insights_results ++ _ }]
    rw [← RunState.append_assoc]
    congr 1
    cases s; simp [RunState.append, RunState.empty]

theorem foldl_delta {α : Type _} (f : RunState γ → α → RunState γ)
    (hf : ∀ s a, f s a = s.append (f RunState.empty a)) :
    ∀ (l : List α) (s : RunState γ),
      l.foldl f s = s.append (l.foldl f RunState.empty) := by
  intro l
  induction l with
  | nil => intro s; simp [List.foldl, RunState.append_empty]
  | cons a l ih =>
    intro s
    simp only [List.foldl]
    rw [ih (f s a), ih (f RunState.empty a), hf s a, RunState.append_assoc]

theorem process_task_delta (C : Collaborators γ) (s : RunState γ) (task : OTask) :
    process_task C s task = s.append (process_task C RunState.empty task) := by
  unfold process_task
  cases hg : C.generate task with
  | error e =>
    dsimp only
    cases s; simp [RunState.append, RunState.empty]
  | ok hyps =>
    dsimp only
    rw [foldl_delta _ (fun s h => process_hypothesis_delta C task h s) hyps]
    rw [foldl_delta _ (fun s h => process_hypothesis_delta C task h s) hyps
      { RunState.empty with tasks_executed := RunState.empty.tasks_executed ++ _ }]
    rw [← RunState.append_assoc]
    congr 1
    cases s; simp [RunState.append, RunState.empty]

theorem RunState.empty_append (s : RunState γ) : RunState.empty.append s = s := by
  cases s; simp [RunState.append, RunState.empty]

theorem process_hypothesis_empty (C : Collaborators γ) (task : OTask) (hyp : Hypothesis) :
    process_hypothesis C task hyp RunState.empty =
      ⟨[hyp_insight C hyp], hyp_creatives C task hyp, hyp_ledger C task hyp, [],
        hyp_creative_calls C task hyp⟩ := by
  unfold process_hypothesis process_creatives hyp_creatives hyp_ledger
    hyp_creative_calls hyp_insight
  cases hv : C.validate hyp with
  | ok v =>
    dsimp only [VDict.status]
    by_cases hcond : strUpper v.status = "VALIDATED" ∧ hyp.driver = some "creative_fatigue"
    · cases hs : C.get_creatives_sample with
      | error e => simp [RunState.empty, hcond, hs, VDict.status]
      | ok sample =>
        cases hg : C.generate_for_campaign (creative_scope_arg task) sample 4 with
        | ok cands => simp [RunState.empty, hcond, hs, hg, VDict.status]
        | error e => simp [RunState.empty, hcond, hs, hg, VDict.status]
    · simp [RunState.empty, hcond, VDict.status]
  | error e =>
    dsimp only [VDict.status]
    have hne : ¬(strUpper "INCONCLUSIVE" = "VALIDATED" ∧
        hyp.driver = some "creative_fatigue") := by
      intro hcc
      exact absurd hcc.1 (by decide)
    simp [RunState.empty, hne, VDict.status]

theorem foldl_hypotheses (C : Collaborators γ) (task : OTask) :
    ∀ (l : List Hypothesis) (s : RunState γ),
      l.foldl (fun st h => process_hypothesis C task h st) s =
        s.append ⟨l.map (hyp_insight C), l.flatMap (hyp_creatives C task),
          l.flatMap (hyp_ledger C task), [], l.flatMap (hyp_creative_calls C task)⟩ := by
  intro l
  induction l with
  | nil =>
    intro s
    simp only [List.foldl, List.map_nil, List.flatMap_nil]
    exact (RunState.append_empty s).symm
  | cons h l ih =>
    intro s
    simp only [List.foldl]
    rw [ih (process_hypothesis C task h s), process_hypothesis_delta C task h s,
      process_hypothesis_empty, RunState.append_assoc]
    congr 1

theorem process_task_empty (C : Collaborators γ) (task : OTask) :
    process_task C RunState.empty task =
      ⟨task_insights C task, task_creatives C task, task_ledger C task,
        [⟨task.id, task.name, task.scope, task.priority⟩],
        task_creative_calls C task⟩ := by
  unfold process_task task_insights task_creatives task_ledger task_creative_calls
  cases hg : C.generate task with
  | error e => simp [RunState.empty]
  | ok hyps =>
    dsimp only
    rw [foldl_hypotheses]
    simp [RunState.append, RunState.empty]

theorem foldl_tasks (C : Collaborators γ) :
    ∀ (l : List OTask) (s : RunState γ),
      l.foldl (process_task C) s =
        s.append ⟨l.flatMap (task_insights C), l.flatMap (task_creatives C),
          l.flatMap (task_ledger C),
          l.map (fun t => ⟨t.id, t.name, t.scope, t.priority⟩),
          l.flatMap (task_creative_calls C)⟩ := by
  intro l
  induction l with
  | nil =>
    intro s
    simp only [List.foldl, List.map_nil, List.flatMap_nil]
    exact (RunState.append_empty s).symm
  | cons t l ih =>
    intro s
    simp only [List.foldl]
    rw [ih (process_task C s t), process_task_delta C s t,
      process_task_empty, RunState.append_assoc]
    congr 1

/-- The run loop in closed form: every field is the in-order concatenation
of pure per-task contributions. -/
theorem run_loop_eq (C : Collaborators γ) (tasks : List OTask) :
    run_loop C tasks =
      ⟨(order_tasks tasks).flatMap (task_insights C),
        (order_tasks tasks).flatMap (task_creatives C),
        (order_tasks tasks).flatMap (task_ledger C),
        (order_tasks tasks).map (fun t => ⟨t.id, t.name, t.scope, t.priority⟩),
        (order_tasks tasks).flatMap (task_creative_calls C)⟩ := by
  unfold run_loop
  rw [foldl_tasks, RunState.empty_append]

end Orchestrator

open Orchestrator in
/-- **C7**.  The executor isolates collaborator failures: the insight and
ledger outputs of a run are the in-order concatenation of pure per-task
contributions (so a failure inside one task cannot abort the run or
change any other task's results); a task whose hypothesis generation
raises contributes zero insight entries and exactly the
`insight_generate` ledger entry; a hypothesis whose evaluator call raises
contributes the synthesized `INCONCLUSIVE` entry with confidence `0.0`
and the `evaluator.validate` ledger entry. -/
theorem executor_failure_isolation :
    (∀ (γ : Type) (C : Collaborators γ) (tasks : List OTask),
      (run_loop C tasks).insights_results =
          (order_tasks tasks).flatMap (task_insights C) ∧
        (run_loop C tasks).errors =
          (order_tasks tasks).flatMap (task_ledger C)) ∧
    (∀ (γ : Type) (C : Collaborators γ) (task : OTask) (e : String),
      C.generate task = .error e →
      task_insights C task = [] ∧
        task_ledger C task = [⟨"insight_generate", some task.id, none, e⟩]) ∧
    (∀ (γ : Type) (C : Collaborators γ) (task : OTask) (hyp : Hypothesis) (e : String),
      C.validate hyp = .error e →
      hyp_insight C hyp =
          ⟨.synthesized hyp.id e, hyp.hypothesis, hyp.driver, hyp.supporting_data_points⟩ ∧
        (hyp_insight C hyp).core.status = "INCONCLUSIVE" ∧
        (hyp_insight C hyp).core.confidence_final = 0 ∧
        ⟨"evaluator.validate", some task.id, some hyp.id, e⟩ ∈ hyp_ledger C task hyp) := by
  refine ⟨?_, ?_, ?_⟩
  · intro γ C tasks
    rw [run_loop_eq]
    exact ⟨rfl, rfl⟩
  · intro γ C task e hg
    unfold task_insights task_ledger
    rw [hg]
    exact ⟨rfl, rfl⟩
  · intro γ C task hyp e hv
    unfold hyp_insight hyp_ledger
    rw [hv]
    exact ⟨rfl, rfl, rfl, by simp⟩

open Orchestrator in
/-- Witness for `executor_failure_isolation` at concrete collaborators:
hypothesis generation fails for the task, and the evaluator fails for a
hypothesis. -/
theorem executor_failure_isolation_witness :
    (task_insights
          (⟨fun _ => .error "gen-broke", fun _ => .ok ⟨"h1", .error "na", none, "low", 1,
              "VALIDATED", "n", []⟩, .ok ([] : List String), fun _ _ _ => .ok []⟩ :
            Collaborators String)
          ⟨"t1", "name", "all_campaigns", 1, []⟩ = [] ∧
      task_ledger
          (⟨fun _ => .error "gen-broke", fun _ => .ok ⟨"h1", .error "na", none, "low", 1,
              "VALIDATED", "n", []⟩, .ok ([] : List String), fun _ _ _ => .ok []⟩ :
            Collaborators String)
          ⟨"t1", "name", "all_campaigns", 1, []⟩ =
        [⟨"insight_generate", some "t1", none, "gen-broke"⟩]) ∧
    hyp_insight
        (⟨fun _ => .ok [], fun _ => .error "eval-broke", .ok ([] : List String),
            fun _ _ _ => .ok []⟩ : Collaborators String)
        ⟨"h7", "text", some "creative_fatigue", 1/2, [], []⟩ =
      ⟨.synthesized "h7" "eval-broke", "text", some "creative_fatigue", []⟩ :=
  ⟨executor_failure_isolation.2.1 String
      ⟨fun _ => .error "gen-broke", fun _ => .ok ⟨"h1", .error "na", none, "low", 1,
          "VALIDATED", "n", []⟩, .ok ([] : List String), fun _ _ _ => .ok []⟩
      ⟨"t1", "name", "all_campaigns", 1, []⟩ "gen-broke" rfl,
    (executor_failure_isolation.2.2 String
      ⟨fun _ => .ok [], fun _ => .error "eval-broke", .ok ([] : List String),
          fun _ _ _ => .ok []⟩
      ⟨"t0", "n", "s", 0, []⟩
      ⟨"h7", "text", some "creative_fatigue", 1/2, [], []⟩ "eval-broke" rfl).1⟩

open Orchestrator in
/-- **C8**.  Creative generation fires exactly once per hypothesis whose
evaluation ended `VALIDATED` with driver `"creative_fatigue"` (for that
hypothesis's task scope), zero times for any non-`VALIDATED` status or
other driver; the creative-invocation trace of a run is the in-order
concatenation of these per-hypothesis contributions; and a failing
creative generator only adds a `creative_generate` ledger entry — it
contributes no creative records and cannot change the insight results. -/
theorem creative_trigger_policy :
    (∀ (γ : Type) (C : Collaborators γ) (tasks : List OTask),
      (run_loop C tasks).creative_calls =
        (order_tasks tasks).flatMap (task_creative_calls C)) ∧
    (∀ (γ : Type) (C : Collaborators γ) (task : OTask) (hyp : Hypothesis)
        (sample : List γ),
      (hyp_insight C hyp).core.status = "VALIDATED" →
      hyp.driver = some "creative_fatigue" →
      C.get_creatives_sample = .ok sample →
      hyp_creative_calls C task hyp = [(creative_scope_arg task, 4)]) ∧
    (∀ (γ : Type) (C : Collaborators γ) (task : OTask) (hyp : Hypothesis),
      strUpper (hyp_insight C hyp).core.status ≠ "VALIDATED" ∨
        hyp.driver ≠ some "creative_fatigue" →
      hyp_creative_calls C task hyp = []) ∧
    (∀ (γ : Type) (C : Collaborators γ)
        (g₁ g₂ : String → List γ → ℕ → Except String (List γ)) (tasks : List OTask),
      (run_loop { C with generate_for_campaign := g₁ } tasks).insights_results =
        (run_loop { C with generate_for_campaign := g₂ } tasks).insights_results) ∧
    (∀ (γ : Type) (C : Collaborators γ) (task : OTask) (hyp : Hypothesis)
        (sample : List γ) (e : String),
      strUpper (hyp_insight C hyp).core.status = "VALIDATED" →
      hyp.driver = some "creative_fatigue" →
      C.get_creatives_sample = .ok sample →
      C.generate_for_campaign (creative_scope_arg task) sample 4 = .error e →
      ⟨"creative_generate", some task.id, some hyp.id, e⟩ ∈ hyp_ledger C task hyp ∧
        hyp_creatives C task hyp = []) := by
  refine ⟨?_, ?_, ?_, ?_, ?_⟩
  · intro γ C tasks
    rw [run_loop_eq]
  · intro γ C task hyp sample hstat hdrv hs
    unfold hyp_creative_calls
    rw [if_pos ⟨by rw [hstat]; decide, hdrv⟩, hs]
  · intro γ C task hyp hne
    unfold hyp_creative_calls
    rw [if_neg]
    intro hcc
    rcases hne with hne | hne
    · exact hne hcc.1
    · exact hne hcc.2
  · intro γ C g₁ g₂ tasks
    rw [run_loop_eq, run_loop_eq]
    rfl
  · intro γ C task hyp sample e hstat hdrv hs hg
    unfold hyp_ledger hyp_creatives
    rw [if_pos ⟨hstat, hdrv⟩, if_pos ⟨hstat, hdrv⟩, hs]
    dsimp only
    rw [hg]
    constructor
    · simp
    · rfl

open Orchestrator in
/-- Witness for `creative_trigger_policy` at concrete collaborators: a
`VALIDATED` `creative_fatigue` hypothesis yields exactly one invocation
with the fallback campaign scope, and a `REFUTED` one yields zero. -/
theorem creative_trigger_policy_witness :
    hyp_creative_calls
        (⟨fun _ => .ok [], fun _ => .ok ⟨"h1", .error "na", none, "low", 1,
            "VALIDATED", "n", []⟩, .ok ([] : List String), fun _ _ _ => .ok []⟩ :
          Collaborators String)
        ⟨"t1", "name", "all_campaigns", 1, []⟩
        ⟨"h1", "text", some "creative_fatigue", 1/2, [], []⟩ = [("campaign_1", 4)] ∧
      hyp_creative_calls
        (⟨fun _ => .ok [], fun _ => .ok ⟨"h1", .error "na", none, "low", 1,
            "REFUTED", "n", []⟩, .ok ([] : List String), fun _ _ _ => .ok []⟩ :
          Collaborators String)
        ⟨"t1", "name", "all_campaigns", 1, []⟩
        ⟨"h1", "text", some "creative_fatigue", 1/2, [], []⟩ = [] :=
  ⟨creative_trigger_policy.2.1 String
      ⟨fun _ => .ok [], fun _ => .ok ⟨"h1", .error "na", none, "low", 1,
          "VALIDATED", "n", []⟩, .ok ([] : List String), fun _ _ _ => .ok []⟩
      ⟨"t1", "name", "all_campaigns", 1, []⟩
      ⟨"h1", "text", some "creative_fatigue", 1/2, [], []⟩ [] rfl rfl rfl,
    creative_trigger_policy.2.2.1 String
      ⟨fun _ => .ok [], fun _ => .ok ⟨"h1", .error "na", none, "low", 1,
          "REFUTED", "n", []⟩, .ok ([] : List String), fun _ _ _ => .ok []⟩
      ⟨"t1", "name", "all_campaigns", 1, []⟩
      ⟨"h1", "text", some "creative_fatigue", 1/2, [], []⟩ (Or.inl (by decide))⟩

/-! ## Scheduler lemmas -/

namespace Orchestrator

theorem idToTask_mem {tasks : List OTask} {node : String} {t : OTask}
    (h : idToTask tasks node = some t) : t ∈ tasks :=
  List.mem_of_find?_eq_some h

theorem idToTask_id {tasks : List OTask} {node : String} {t : OTask}
    (h : idToTask tasks node = some t) : t.id = node := by
  have := List.find?_some h
  simpa using this

theorem idToTask_isSome_of_mem {tasks : List OTask} {node : String}
    (h : node ∈ ids tasks) : ∃ t, idToTask tasks node = some t ∧ t.id = node := by
  unfold ids at h
  obtain ⟨t, ht, rfl⟩ := List.mem_map.1 h
  rcases hf : tasks.find? (fun u => u.id == t.id) with _ | u
  · exfalso
    have := List.find?_eq_none.1 hf t ht
    simp at this
  · exact ⟨u, hf, by simpa using List.find?_some hf⟩

theorem idToTask_self {tasks : List OTask} (hids : (ids tasks).Nodup) {t : OTask}
    (ht : t ∈ tasks) : idToTask tasks t.id = some t := by
  obtain ⟨u, hu, huid⟩ :=
    @idToTask_isSome_of_mem tasks t.id (List.mem_map_of_mem _ ht)
  have hum : u ∈ tasks := idToTask_mem hu
  have : u = t := List.inj_on_of_nodup_map hids hum ht huid
  cases this
  exact hu

/-- The state invariant maintained by the depth-first visitation: the
output records exactly the visited ids in visitation order, each output
record is the looked-up task of its id, and visited ids are distinct task
ids. -/
structure Inv (tasks : List OTask) (s : DfsState) : Prop where
  map_id : s.ordered.map OTask.id = s.visited.reverse
  mem_ok : ∀ t ∈ s.ordered, idToTask tasks t.id = some t
  visited_sub : ∀ i ∈ s.visited, i ∈ ids tasks
  visited_nodup : s.visited.Nodup

/-- The inner fold of `visit` over the dependencies of `node`. -/
def visitFold (tasks : List OTask) (fuel : ℕ) (node : String) (s : DfsState) : DfsState :=
  (depsOf tasks node).foldl
    (fun st d => if d ∈ ids tasks then visit tasks fuel d st else st)
    { s with temp := node :: s.temp }

theorem visit_zero (tasks : List OTask) (node : String) (s : DfsState) :
    visit tasks 0 node s = s := rfl

theorem visit_succ_visited (tasks : List OTask) (fuel : ℕ) (node : String)
    (s : DfsState) (h : node ∈ s.visited) : visit tasks (fuel + 1) node s = s := by
  rw [visit, if_pos h]

theorem visit_succ_temp (tasks : List OTask) (fuel : ℕ) (node : String)
    (s : DfsState) (h1 : node ∉ s.visited) (h2 : node ∈ s.temp) :
    visit tasks (fuel + 1) node s =
      { s with warnings := s.warnings ++
          ["Cycle detected in task dependencies at " ++ node ++ "; ignoring cyclic edge"] } := by
  rw [visit, if_neg h1, if_pos h2]

theorem visit_succ_main (tasks : List OTask) (fuel : ℕ) (node : String)
    (s : DfsState) (t : OTask) (h1 : node ∉ s.visited) (h2 : node ∉ s.temp)
    (ht : idToTask tasks node = some t) :
    visit tasks (fuel + 1) node s =
      ⟨(visitFold tasks fuel node s).ordered ++ [t],
        node :: (visitFold tasks fuel node s).visited,
        (visitFold tasks fuel node s).temp.erase node,
        (visitFold tasks fuel node s).warnings⟩ := by
  rw [visit, if_neg h1, if_neg h2]
  dsimp only
  rw [ht]
  rfl

/-- Core invariant-preservation lemma for `visit`: the invariant is
preserved, `temp` is restored, `visited` only grows, and every newly
visited id was not on the in-progress stack. -/
theorem visit_inv (tasks : List OTask) :
    ∀ (fuel : ℕ) (node : String) (s : DfsState),
      node ∈ ids tasks → Inv tasks s →
      Inv tasks (visit tasks fuel node s) ∧
      (visit tasks fuel node s).temp = s.temp ∧
      (∀ x ∈ s.visited, x ∈ (visit tasks fuel node s).visited) ∧
      (∀ x ∈ (visit tasks fuel node s).visited, x ∈ s.visited ∨ x ∉ s.temp) := by
  intro fuel
  induction fuel with
  | zero =>
    intro node s _ hs
    rw [visit_zero]
    exact ⟨hs, rfl, fun x hx => hx, fun x hx => Or.inl hx⟩
  | succ fuel ih =>
    intro node s hn hs
    by_cases h1 : node ∈ s.visited
    · rw [visit_succ_visited tasks fuel node s h1]
      exact ⟨hs, rfl, fun x hx => hx, fun x hx => Or.inl hx⟩
    · by_cases h2 : node ∈ s.temp
      · rw [visit_succ_temp tasks fuel node s h1 h2]
        refine ⟨⟨hs.map_id, hs.mem_ok, hs.visited_sub, hs.visited_nodup⟩, rfl,
          fun x hx => hx, fun x hx => Or.inl hx⟩
      · obtain ⟨t, ht, htid⟩ := idToTask_isSome_of_mem hn
        rw [visit_succ_main tasks fuel node s t h1 h2 ht]
        have hfold : ∀ (ds : List String) (st : DfsState),
            st.temp = node :: s.temp → Inv tasks st →
            Inv tasks (ds.foldl
                (fun st d => if d ∈ ids tasks then visit tasks fuel d st else st) st) ∧
              (ds.foldl
                (fun st d => if d ∈ ids tasks then visit tasks fuel d st else st) st).temp
                = node :: s.temp ∧
              (∀ x ∈ st.visited, x ∈ (ds.foldl
                (fun st d => if d ∈ ids tasks then visit tasks fuel d st else st) st).visited) ∧
              (∀ x ∈ (ds.foldl
                (fun st d => if d ∈ ids tasks then visit tasks fuel d st else st) st).visited,
                x ∈ st.visited ∨ x ∉ node :: s.temp) := by
          intro ds
          induction ds with
          | nil => intro st hst hinv; exact ⟨hinv, hst, fun x hx => hx, fun x hx => Or.inl hx⟩
          | cons d ds ihds =>
            intro st hst hinv
            simp only [List.foldl_cons]
            by_cases hd : d ∈ ids tasks
            · rw [if_pos hd]
              have hv := ih d st hd hinv
              have hrec := ihds (visit tasks fuel d st) (by rw [hv.2.1, hst]) hv.1
              refine ⟨hrec.1, hrec.2.1, ?_, ?_⟩
              · intro x hx
                exact hrec.2.2.1 x (hv.2.2.1 x hx)
              · intro x hx
                rcases hrec.2.2.2 x hx with hx' | hx'
                · rcases hv.2.2.2 x hx' with hx'' | hx''
                  · exact Or.inl hx''
                  · exact Or.inr (by rw [← hst]; exact hx'')
                · exact Or.inr hx'
            · rw [if_neg hd]
              exact ihds st hst hinv
        have hst1 : ({ s with temp := node :: s.temp } : DfsState).temp = node :: s.temp := rfl
        have hinv1 : Inv tasks { s with temp := node :: s.temp } :=
          ⟨hs.map_id, hs.mem_ok, hs.visited_sub, hs.visited_nodup⟩
        obtain ⟨hinv2, htemp2, hmono2, hfresh2⟩ :=
          hfold (depsOf tasks node) { s with temp := node :: s.temp } hst1 hinv1
        have hF : visitFold tasks fuel node s =
            (depsOf tasks node).foldl
              (fun st d => if d ∈ ids tasks then visit tasks fuel d st else st)
              { s with temp := node :: s.temp } := rfl
        rw [hF]
        set F := (depsOf tasks node).foldl
          (fun st d => if d ∈ ids tasks then visit tasks fuel d st else st)
          { s with temp := node :: s.temp } with hFdef
        have hnode_not : node ∉ F.visited := by
          intro hmem
          rcases hfresh2 node hmem with hx | hx
          · exact h1 hx
          · exact hx (List.mem_cons_self node s.temp)
        refine ⟨⟨?_, ?_, ?_, ?_⟩, ?_, ?_, ?_⟩
        · show (F.ordered ++ [t]).map OTask.id = (node :: F.visited).reverse
          rw [List.map_append, hinv2.map_id, List.reverse_cons]
          simp [htid]
        · intro u hu
          rcases List.mem_append.1 hu with hu | hu
          · exact hinv2.mem_ok u hu
          · rw [List.mem_singleton.1 hu, htid]
            exact ht
        · intro i hi
          rcases List.mem_cons.1 hi with hi | hi
          · rw [hi]; exact hn
          · exact hinv2.visited_sub i hi
        · exact List.Nodup.cons hnode_not hinv2.visited_nodup
        · show (F.temp.erase node) = s.temp
          rw [htemp2]
          exact List.erase_cons_head node s.temp
        · intro x hx
          exact List.mem_cons_of_mem node (hmono2 x hx)
        · intro x hx
          rcases List.mem_cons.1 hx with hx | hx
          · rw [hx]; exact Or.inr h2
          · rcases hfresh2 x hx with hx' | hx'
            · exact Or.inl hx'
            · exact Or.inr (fun hcon => hx' (List.mem_cons_of_mem node hcon))

/-- A call `visit(node)` with one unit of fuel and `node` not in progress
always leaves `node` visited (cycles in deeper recursion included). -/
theorem visit_self_mem (tasks : List OTask) (fuel : ℕ) (node : String) (s : DfsState)
    (h2 : node ∉ s.temp) : node ∈ (visit tasks (fuel + 1) node s).visited := by
  by_cases h1 : node ∈ s.visited
  · rw [visit_succ_visited tasks fuel node s h1]
    exact h1
  · rcases hmt : idToTask tasks node with _ | t
    · rw [visit, if_neg h1, if_neg h2]
      dsimp only
      rw [hmt]
      exact List.mem_cons_self _ _
    · rw [visit_succ_main tasks fuel node s t h1 h2 hmt]
      exact List.mem_cons_self _ _

theorem insertSorted_perm (le : α → α → Bool) (x : α) (l : List α) :
    (insertSorted le x l).Perm (x :: l) := by
  induction l with
  | nil => exact List.Perm.refl _
  | cons y ys ih =>
    unfold insertSorted
    by_cases h : le x y
    · rw [if_pos h]
    · rw [if_neg h]
      exact (ih.cons y).trans (List.Perm.swap x y ys)

theorem sortByLe_perm (le : α → α → Bool) (l : List α) : (sortByLe le l).Perm l := by
  induction l with
  | nil => exact List.Perm.refl _
  | cons x xs ih => exact (insertSorted_perm le x (sortByLe le xs)).trans (ih.cons x)

/-- The first loop of `_order_tasks` preserves the invariant, keeps `temp`
empty, and visits the id of every task of the list. -/
theorem loop1_inv (tasks : List OTask) :
    ∀ (l : List OTask) (s : DfsState),
      (∀ t ∈ l, t.id ∈ ids tasks) → Inv tasks s → s.temp = [] →
      Inv tasks (l.foldl (fun st t => visit tasks (tasks.length + 1) t.id st) s) ∧
      (l.foldl (fun st t => visit tasks (tasks.length + 1) t.id st) s).temp = [] ∧
      (∀ x ∈ s.visited,
        x ∈ (l.foldl (fun st t => visit tasks (tasks.length + 1) t.id st) s).visited) ∧
      (∀ t ∈ l,
        t.id ∈ (l.foldl (fun st t => visit tasks (tasks.length + 1) t.id st) s).visited) := by
  intro l
  induction l with
  | nil =>
    intro s _ hs hst
    exact ⟨hs, hst, fun x hx => hx, fun t ht => absurd ht (List.not_mem_nil t)⟩
  | cons t l ihl =>
    intro s hl hs hst
    simp only [List.foldl_cons]
    have hv := visit_inv tasks (tasks.length + 1) t.id s
      (hl t (List.mem_cons_self t l)) hs
    have hself : t.id ∈ (visit tasks (tasks.length + 1) t.id s).visited :=
      visit_self_mem tasks tasks.length t.id s (by rw [hst]; exact List.not_mem_nil _)
    have hrec := ihl (visit tasks (tasks.length + 1) t.id s)
      (fun u hu => hl u (List.mem_cons_of_mem t hu)) hv.1 (by rw [hv.2.1, hst])
    refine ⟨hrec.1, hrec.2.1, fun x hx => hrec.2.2.1 x (hv.2.2.1 x hx), ?_⟩
    intro u hu
    rcases List.mem_cons.1 hu with hu | hu
    · rw [hu]
      exact hrec.2.2.1 t.id hself
    · exact hrec.2.2.2 u hu

/-- The second loop of `_order_tasks` appends nothing when every task is
already in the output. -/
theorem loop2_noop :
    ∀ (l : List OTask) (s : DfsState), (∀ t ∈ l, t ∈ s.ordered) →
      l.foldl
        (fun st t => if t ∈ st.ordered then st else { st with ordered := st.ordered ++ [t] })
        s = s := by
  intro l
  induction l with
  | nil => intro s _; rfl
  | cons t l ihl =>
    intro s hl
    simp only [List.foldl_cons]
    rw [if_pos (hl t (List.mem_cons_self t l))]
    exact ihl s (fun u hu => hl u (List.mem_cons_of_mem t hu))

/-- `_order_tasks` returns a permutation of its input whenever the task
ids are distinct (the run invariant), cycles or dangling dependencies
notwithstanding. -/
theorem order_tasks_perm (tasks : List OTask) (hids : (ids tasks).Nodup) :
    (order_tasks tasks).Perm tasks := by
  have hsp : (sortByLe taskLe tasks).Perm tasks := sortByLe_perm taskLe tasks
  have hinit : Inv tasks ⟨[], [], [], []⟩ := by
    refine ⟨rfl, ?_, ?_, List.nodup_nil⟩
    · intro t ht; exact absurd ht (List.not_mem_nil t)
    · intro i hi; exact absurd hi (List.not_mem_nil i)
  obtain ⟨hinv, htemp, _, hvisited_all⟩ :=
    loop1_inv tasks (sortByLe taskLe tasks) ⟨[], [], [], []⟩
      (fun t ht => List.mem_map_of_mem _ (hsp.mem_iff.1 ht)) hinit rfl
  have hordmem : ∀ t ∈ tasks,
      t ∈ ((sortByLe taskLe tasks).foldl
        (fun st t => visit tasks (tasks.length + 1) t.id st) ⟨[], [], [], []⟩).ordered := by
    intro t ht
    have hidv := hvisited_all t (hsp.mem_iff.2 ht)
    have hmapped : t.id ∈ (((sortByLe taskLe tasks).foldl
        (fun st t => visit tasks (tasks.length + 1) t.id st)
        ⟨[], [], [], []⟩).ordered.map OTask.id) := by
      rw [hinv.map_id]
      exact List.mem_reverse.2 hidv
    obtain ⟨u, hu, huid⟩ := List.mem_map.1 hmapped
    have hmo := hinv.mem_ok u hu
    rw [huid] at hmo
    have heq : some u = some t := hmo.symm.trans (idToTask_self hids ht)
    cases Option.some.inj heq
    exact hu
  have hordsub : ∀ u ∈ ((sortByLe taskLe tasks).foldl
      (fun st t => visit tasks (tasks.length + 1) t.id st) ⟨[], [], [], []⟩).ordered,
      u ∈ tasks := fun u hu => idToTask_mem (hinv.mem_ok u hu)
  have hnodup_ord : (((sortByLe taskLe tasks).foldl
      (fun st t => visit tasks (tasks.length + 1) t.id st) ⟨[], [], [], []⟩).ordered).Nodup := by
    have hmapnodup : ((((sortByLe taskLe tasks).foldl
        (fun st t => visit tasks (tasks.length + 1) t.id st)
        ⟨[], [], [], []⟩).ordered).map OTask.id).Nodup := by
      rw [hinv.map_id]
      exact List.nodup_reverse.2 hinv.visited_nodup
    exact hmapnodup.of_map
  have htasks_nodup : tasks.Nodup := hids.of_map
  have hred : order_tasks tasks = ((sortByLe taskLe tasks).foldl
      (fun st t => visit tasks (tasks.length + 1) t.id st) ⟨[], [], [], []⟩).ordered := by
    unfold order_tasks order_tasks_state
    dsimp only
    rw [loop2_noop _ _ (fun t ht => hordmem t (hsp.mem_iff.1 ht))]
  rw [hred]
  exact (hnodup_ord.subperm hordsub).antisymm
    (htasks_nodup.subperm (fun t ht => hordmem t ht))

/-- Topological soundness of an output list: every element's declared
dependencies that name an existing task id appear strictly earlier. -/
def DepsBefore (tasks : List OTask) (l : List OTask) : Prop :=
  ∀ (i : ℕ) (t : OTask), l[i]? = some t → ∀ d ∈ t.depends_on, d ∈ ids tasks →
    d ∈ (l.take i).map OTask.id

/-- Core lemma for the acyclic case.  `rank` is a witness of acyclicity
(every present dependency edge strictly decreases it).  With enough fuel
(`|ids| + 1` minus the stack depth) the cycle guard never fires, the
visited node ends up visited, and the output stays dependency-closed. -/
theorem visit_rank (tasks : List OTask) (rank : String → ℕ)
    (hrank : ∀ t ∈ tasks, ∀ d ∈ t.depends_on, d ∈ ids tasks → rank d < rank t.id) :
    ∀ (fuel : ℕ) (node : String) (s : DfsState),
      node ∈ ids tasks → Inv tasks s → DepsBefore tasks s.ordered →
      (∀ x ∈ s.temp, rank node < rank x) →
      s.temp.Nodup → (∀ x ∈ s.temp, x ∈ ids tasks) →
      tasks.length + 1 ≤ fuel + s.temp.length →
      Inv tasks (visit tasks fuel node s) ∧
      (visit tasks fuel node s).temp = s.temp ∧
      (∀ x ∈ s.visited, x ∈ (visit tasks fuel node s).visited) ∧
      (∀ x ∈ (visit tasks fuel node s).visited, x ∈ s.visited ∨ x ∉ s.temp) ∧
      DepsBefore tasks (visit tasks fuel node s).ordered ∧
      node ∈ (visit tasks fuel node s).visited := by
  intro fuel
  induction fuel with
  | zero =>
    intro node s _ _ _ _ htnodup htsub hfuel
    exfalso
    have hle : s.temp.length ≤ (ids tasks).length :=
      (htnodup.subperm htsub).length_le
    have hlen : (ids tasks).length = tasks.length := List.length_map _ _
    omega
  | succ fuel ih =>
    intro node s hn hinv hdb hchain htnodup htsub hfuel
    by_cases h1 : node ∈ s.visited
    · rw [visit_succ_visited tasks fuel node s h1]
      exact ⟨hinv, rfl, fun x hx => hx, fun x hx => Or.inl hx, hdb, h1⟩
    · have h2 : node ∉ s.temp := fun hmem => lt_irrefl _ (hchain node hmem)
      obtain ⟨tn, htn, htnid⟩ := idToTask_isSome_of_mem hn
      have hdeps_eq : depsOf tasks node = tn.depends_on := by
        unfold depsOf
        rw [htn]
      have hnode_rank : ∀ d ∈ depsOf tasks node, d ∈ ids tasks → rank d < rank node := by
        intro d hd hdids
        rw [hdeps_eq] at hd
        have := hrank tn (idToTask_mem htn) d hd hdids
        rw [htnid] at this
        exact this
      rw [visit_succ_main tasks fuel node s tn h1 h2 htn]
      have hfold : ∀ (ds : List String) (st : DfsState),
          (∀ d ∈ ds, d ∈ depsOf tasks node) →
          st.temp = node :: s.temp → Inv tasks st → DepsBefore tasks st.ordered →
          Inv tasks (ds.foldl
              (fun st d => if d ∈ ids tasks then visit tasks fuel d st else st) st) ∧
            (ds.foldl
              (fun st d => if d ∈ ids tasks then visit tasks fuel d st else st) st).temp
              = node :: s.temp ∧
            (∀ x ∈ st.visited, x ∈ (ds.foldl
              (fun st d => if d ∈ ids tasks then visit tasks fuel d st else st) st).visited) ∧
            (∀ x ∈ (ds.foldl
              (fun st d => if d ∈ ids tasks then visit tasks fuel d st else st) st).visited,
              x ∈ st.visited ∨ x ∉ node :: s.temp) ∧
            DepsBefore tasks (ds.foldl
              (fun st d => if d ∈ ids tasks then visit tasks fuel d st else st) st).ordered ∧
            (∀ d ∈ ds, d ∈ ids tasks → d ∈ (ds.foldl
              (fun st d => if d ∈ ids tasks then visit tasks fuel d st else st) st).visited) := by
        intro ds
        induction ds with
        | nil =>
          intro st _ hst hinv' hdb'
          exact ⟨hinv', hst, fun x hx => hx, fun x hx => Or.inl hx, hdb',
            fun d hd => absurd hd (List.not_mem_nil d)⟩
        | cons d ds ihds =>
          intro st hdss hst hinv' hdb'
          simp only [List.foldl_cons]
          by_cases hd : d ∈ ids tasks
          · rw [if_pos hd]
            have hchain' : ∀ x ∈ st.temp, rank d < rank x := by
              intro x hx
              rw [hst] at hx
              rcases List.mem_cons.1 hx with hx | hx
              · rw [hx]
                exact hnode_rank d (hdss d (List.mem_cons_self d ds)) hd
              · exact lt_trans (hnode_rank d (hdss d (List.mem_cons_self d ds)) hd)
                  (hchain x hx)
            have htnodup' : st.temp.Nodup := by
              rw [hst]
              exact List.nodup_cons.2 ⟨h2, htnodup⟩
            have htsub' : ∀ x ∈ st.temp, x ∈ ids tasks := by
              intro x hx
              rw [hst] at hx
              rcases List.mem_cons.1 hx with hx | hx
              · rw [hx]; exact hn
              · exact htsub x hx
            have hfuel' : tasks.length + 1 ≤ fuel + st.temp.length := by
              rw [hst]
              simp only [List.length_cons]
              omega
            have hv := ih d st hd hinv' hdb' hchain' htnodup' htsub' hfuel'
            have hrec := ihds (visit tasks fuel d st)
              (fun u hu => hdss u (List.mem_cons_of_mem d hu))
              (by rw [hv.2.1, hst]) hv.1 hv.2.2.2.2.1
            refine ⟨hrec.1, hrec.2.1, ?_, ?_, hrec.2.2.2.2.1, ?_⟩
            · intro x hx
              exact hrec.2.2.1 x (hv.2.2.1 x hx)
            · intro x hx
              rcases hrec.2.2.2.1 x hx with hx' | hx'
              · rcases hv.2.2.2.1 x hx' with hx'' | hx''
                · exact Or.inl hx''
                · exact Or.inr (by rw [← hst]; exact hx'')
              · exact Or.inr hx'
            · intro u hu huids
              rcases List.mem_cons.1 hu with hu | hu
              · rw [hu]
                exact hrec.2.2.1 d hv.2.2.2.2.2
              · exact hrec.2.2.2.2.2 u hu huids
          · rw [if_neg hd]
            have hrec := ihds st (fun u hu => hdss u (List.mem_cons_of_mem d hu))
              hst hinv' hdb'
            refine ⟨hrec.1, hrec.2.1, hrec.2.2.1, hrec.2.2.2.1, hrec.2.2.2.2.1, ?_⟩
            intro u hu huids
            rcases List.mem_cons.1 hu with hu | hu
            · exact absurd (hu ▸ huids) hd
            · exact hrec.2.2.2.2.2 u hu huids
      obtain ⟨hinv2, htemp2, hmono2, hfresh2, hdb2, hdeps_vis⟩ :=
        hfold (depsOf tasks node) { s with temp := node :: s.temp } (fun d hd => hd) rfl
          ⟨hinv.map_id, hinv.mem_ok, hinv.visited_sub, hinv.visited_nodup⟩ hdb
      have hF : visitFold tasks fuel node s =
          (depsOf tasks node).foldl
            (fun st d => if d ∈ ids tasks then visit tasks fuel d st else st)
            { s with temp := node :: s.temp } := rfl
      rw [hF]
      set F := (depsOf tasks node).foldl
        (fun st d => if d ∈ ids tasks then visit tasks fuel d st else st)
        { s with temp := node :: s.temp } with hFdef
      have hnode_not : node ∉ F.visited := by
        intro hmem
        rcases hfresh2 node hmem with hx | hx
        · exact h1 hx
        · exact hx (List.mem_cons_self node s.temp)
      refine ⟨⟨?_, ?_, ?_, ?_⟩, ?_, ?_, ?_, ?_, ?_⟩
      · show (F.ordered ++ [tn]).map OTask.id = (node :: F.visited).reverse
        rw [List.map_append, hinv2.map_id, List.reverse_cons]
        simp [htnid]
      · intro u hu
        rcases List.mem_append.1 hu with hu | hu
        · exact hinv2.mem_ok u hu
        · rw [List.mem_singleton.1 hu, htnid]
          exact htn
      · intro i hi
        rcases List.mem_cons.1 hi with hi | hi
        · rw [hi]; exact hn
        · exact hinv2.visited_sub i hi
      · exact List.Nodup.cons hnode_not hinv2.visited_nodup
      · show (F.temp.erase node) = s.temp
        rw [htemp2]
        exact List.erase_cons_head node s.temp
      · intro x hx
        exact List.mem_cons_of_mem node (hmono2 x hx)
      · intro x hx
        rcases List.mem_cons.1 hx with hx | hx
        · rw [hx]; exact Or.inr h2
        · rcases hfresh2 x hx with hx' | hx'
          · exact Or.inl hx'
          · exact Or.inr (fun hcon => hx' (List.mem_cons_of_mem node hcon))
      · -- dependency closure of the extended output
        intro i t' hget d hd hdids
        by_cases hi : i < F.ordered.length
        · rw [List.getElem?_append_left hi] at hget
          rw [List.take_append_of_le_length (le_of_lt hi)]
          exact hdb2 i t' hget d hd hdids
        · have hge : F.ordered.length ≤ i := le_of_not_lt hi
          rw [List.getElem?_append_right hge] at hget
          rcases hk : i - F.ordered.length with _ | k
          · rw [hk] at hget
            have ht' : t' = tn := by
              simpa using hget.symm
            have hieq : i = F.ordered.length := by omega
            rw [hieq, List.take_left]
            have hdd : d ∈ depsOf tasks node := by
              rw [hdeps_eq, ← ht']
              exact hd
            have hdv : d ∈ F.visited := hdeps_vis d hdd hdids
            rw [hinv2.map_id]
            exact List.mem_reverse.2 hdv
          · rw [hk] at hget
            simp at hget
      · exact List.mem_cons_self node F.visited

/-- The first loop of `_order_tasks` on an acyclic dependency relation:
the invariant and dependency closure hold, and every listed task id gets
visited. -/
theorem loop1_rank (tasks : List OTask) (rank : String → ℕ)
    (hrank : ∀ t ∈ tasks, ∀ d ∈ t.depends_on, d ∈ ids tasks → rank d < rank t.id) :
    ∀ (l : List OTask) (s : DfsState),
      (∀ t ∈ l, t.id ∈ ids tasks) → Inv tasks s → DepsBefore tasks s.ordered →
      s.temp = [] →
      Inv tasks (l.foldl (fun st t => visit tasks (tasks.length + 1) t.id st) s) ∧
      (l.foldl (fun st t => visit tasks (tasks.length + 1) t.id st) s).temp = [] ∧
      DepsBefore tasks
        (l.foldl (fun st t => visit tasks (tasks.length + 1) t.id st) s).ordered ∧
      (∀ x ∈ s.visited,
        x ∈ (l.foldl (fun st t => visit tasks (tasks.length + 1) t.id st) s).visited) ∧
      (∀ t ∈ l,
        t.id ∈ (l.foldl (fun st t => visit tasks (tasks.length + 1) t.id st) s).visited) := by
  intro l
  induction l with
  | nil =>
    intro s _ hs hdb hst
    exact ⟨hs, hst, hdb, fun x hx => hx, fun t ht => absurd ht (List.not_mem_nil t)⟩
  | cons t l ihl =>
    intro s hl hs hdb hst
    simp only [List.foldl_cons]
    have hv := visit_rank tasks rank hrank (tasks.length + 1) t.id s
      (hl t (List.mem_cons_self t l)) hs hdb
      (by rw [hst]; exact fun x hx => absurd hx (List.not_mem_nil x))
      (by rw [hst]; exact List.nodup_nil)
      (by rw [hst]; exact fun x hx => absurd hx (List.not_mem_nil x))
      (by rw [hst]; simp)
    have hrec := ihl (visit tasks (tasks.length + 1) t.id s)
      (fun u hu => hl u (List.mem_cons_of_mem t hu)) hv.1 hv.2.2.2.2.1
      (by rw [hv.2.1, hst])
    refine ⟨hrec.1, hrec.2.1, hrec.2.2.1, fun x hx => hrec.2.2.2.1 x (hv.2.2.1 x hx), ?_⟩
    intro u hu
    rcases List.mem_cons.1 hu with hu | hu
    · rw [hu]
      exact hrec.2.2.2.1 t.id hv.2.2.2.2.2
    · exact hrec.2.2.2.2 u hu

/-- `_order_tasks` on an acyclic (rank-decreasing) dependency relation
with distinct ids produces a dependency-closed output. -/
theorem order_tasks_topological (tasks : List OTask) (rank : String → ℕ)
    (hids : (ids tasks).Nodup)
    (hrank : ∀ t ∈ tasks, ∀ d ∈ t.depends_on, d ∈ ids tasks → rank d < rank t.id) :
    DepsBefore tasks (order_tasks tasks) := by
  have hsp := sortByLe_perm taskLe tasks
  have hinit : Inv tasks ⟨[], [], [], []⟩ := by
    refine ⟨rfl, ?_, ?_, List.nodup_nil⟩
    · intro t ht; exact absurd ht (List.not_mem_nil t)
    · intro i hi; exact absurd hi (List.not_mem_nil i)
  have hdbinit : DepsBefore tasks ([] : List OTask) := by
    intro i t hget
    simp at hget
  obtain ⟨hinv, htemp, hdb, _, hvisited_all⟩ :=
    loop1_rank tasks rank hrank (sortByLe taskLe tasks) ⟨[], [], [], []⟩
      (fun t ht => List.mem_map_of_mem _ (hsp.mem_iff.1 ht)) hinit hdbinit rfl
  have hordmem : ∀ t ∈ tasks,
      t ∈ ((sortByLe taskLe tasks).foldl
        (fun st t => visit tasks (tasks.length + 1) t.id st) ⟨[], [], [], []⟩).ordered := by
    intro t ht
    have hidv := hvisited_all t (hsp.mem_iff.2 ht)
    have hmapped : t.id ∈ (((sortByLe taskLe tasks).foldl
        (fun st t => visit tasks (tasks.length + 1) t.id st)
        ⟨[], [], [], []⟩).ordered.map OTask.id) := by
      rw [hinv.map_id]
      exact List.mem_reverse.2 hidv
    obtain ⟨u, hu, huid⟩ := List.mem_map.1 hmapped
    have hmo := hinv.mem_ok u hu
    rw [huid] at hmo
    have heq : some u = some t := hmo.symm.trans (idToTask_self hids ht)
    cases Option.some.inj heq
    exact hu
  have hred : order_tasks tasks = ((sortByLe taskLe tasks).foldl
      (fun st t => visit tasks (tasks.length + 1) t.id st) ⟨[], [], [], []⟩).ordered := by
    unfold order_tasks order_tasks_state
    dsimp only
    rw [loop2_noop _ _ (fun t ht => hordmem t (hsp.mem_iff.1 ht))]
  rw [hred]
  exact hdb

/-- Visiting a node with no declared dependencies just appends its task. -/
theorem visit_no_deps (tasks : List OTask) (fuel : ℕ) (node : String) (s : DfsState)
    (t : OTask) (h1 : node ∉ s.visited) (h2 : node ∉ s.temp)
    (ht : idToTask tasks node = some t) (hd : depsOf tasks node = []) :
    visit tasks (fuel + 1) node s =
      { s with visited := node :: s.visited, ordered := s.ordered ++ [t] } := by
  rw [visit_succ_main tasks fuel node s t h1 h2 ht]
  unfold visitFold
  rw [hd]
  simp only [List.foldl_nil]
  cases s
  simp [List.erase_cons_head]

/-- The first loop on a dependency-free task list appends the tasks in
visitation order. -/
theorem loop1_no_deps (tasks : List OTask) :
    ∀ (l : List OTask) (s : DfsState),
      (∀ t ∈ l, idToTask tasks t.id = some t ∧ depsOf tasks t.id = []) →
      (∀ t ∈ l, t.id ∉ s.visited) →
      (l.map OTask.id).Nodup →
      s.temp = [] →
      l.foldl (fun st t => visit tasks (tasks.length + 1) t.id st) s =
        { s with
          ordered := s.ordered ++ l
          visited := (l.map OTask.id).reverse ++ s.visited } := by
  intro l
  induction l with
  | nil =>
    intro s _ _ _ _
    cases s
    simp
  | cons t l ihl =>
    intro s hall hfresh hnodup hst
    simp only [List.foldl_cons]
    rw [visit_no_deps tasks tasks.length t.id s t (hfresh t (List.mem_cons_self t l))
      (by rw [hst]; exact List.not_mem_nil _) (hall t (List.mem_cons_self t l)).1
      (hall t (List.mem_cons_self t l)).2]
    have hid_not : t.id ∉ l.map OTask.id := by
      have := hnodup
      rw [List.map_cons] at this
      exact (List.nodup_cons.1 this).1
    rw [ihl { s with visited := t.id :: s.visited, ordered := s.ordered ++ [t] }
      (fun u hu => hall u (List.mem_cons_of_mem t hu))
      (fun u hu => by
        intro hmem
        rcases List.mem_cons.1 hmem with hm | hm
        · exact hid_not (hm ▸ List.mem_map_of_mem OTask.id hu)
        · exact hfresh u (List.mem_cons_of_mem t hu) hm)
      (by
        rw [List.map_cons] at hnodup
        exact (List.nodup_cons.1 hnodup).2)
      (by rw [hst])]
    cases s
    simp

/-- On a dependency-free task set with distinct ids, `_order_tasks` is
exactly the plain ascending `(priority, id)` sort. -/
theorem order_tasks_no_deps (tasks : List OTask)
    (hdeps : ∀ t ∈ tasks, t.depends_on = []) (hids : (ids tasks).Nodup) :
    order_tasks tasks = sortByLe taskLe tasks := by
  have hsp := sortByLe_perm taskLe tasks
  have hforall : ∀ t ∈ sortByLe taskLe tasks,
      idToTask tasks t.id = some t ∧ depsOf tasks t.id = [] := by
    intro t ht
    have htt : t ∈ tasks := hsp.mem_iff.1 ht
    have h1 := idToTask_self hids htt
    refine ⟨h1, ?_⟩
    unfold depsOf
    rw [h1]
    exact hdeps t htt
  have hnodup_sorted : ((sortByLe taskLe tasks).map OTask.id).Nodup :=
    ((hsp.map OTask.id).nodup_iff).2 hids
  have hl := loop1_no_deps tasks (sortByLe taskLe tasks) ⟨[], [], [], []⟩ hforall
    (fun t _ => List.not_mem_nil _) hnodup_sorted rfl
  unfold order_tasks order_tasks_state
  dsimp only
  rw [hl, loop2_noop]
  · simp
  · intro t ht
    simpa using ht

end Orchestrator

open Orchestrator in
/-- **C9**.  `TaskSchema` declares no `depends_on` field, so every task
the wired pipeline feeds to the scheduler has an empty dependency set,
and on such inputs (with the unique-id run invariant) `_order_tasks` is
extensionally the plain ascending `(priority, id)` sort — the dependency
visitation and cycle handling are unreachable. -/
theorem taskschema_scheduler_plain_sort :
    (∀ t : TaskSchema, (toOTask t).depends_on = []) ∧
    (∀ ts : List TaskSchema, (ts.map TaskSchema.id).Nodup →
      order_tasks (ts.map toOTask) = sortByLe taskLe (ts.map toOTask)) := by
  constructor
  · intro t
    rfl
  · intro ts h
    apply order_tasks_no_deps
    · intro t ht
      obtain ⟨u, _, rfl⟩ := List.mem_map.1 ht
      rfl
    · show ((ts.map toOTask).map OTask.id).Nodup
      rw [List.map_map]
      exact h

open Orchestrator in
/-- Witness for `taskschema_scheduler_plain_sort` at a concrete input. -/
theorem taskschema_scheduler_plain_sort_witness :
    order_tasks ([⟨"t2", "trend", "ctr", "all", 2, []⟩,
        ⟨"t1", "trend", "roas", "all", 1, []⟩].map toOTask) =
      sortByLe taskLe ([⟨"t2", "trend", "ctr", "all", 2, []⟩,
        ⟨"t1", "trend", "roas", "all", 1, []⟩].map toOTask) :=
  taskschema_scheduler_plain_sort.2
    [⟨"t2", "trend", "ctr", "all", 2, []⟩, ⟨"t1", "trend", "roas", "all", 1, []⟩]
    (by decide)

open Orchestrator in
/-- **C3**.  On an acyclic dependency relation (witnessed by a rank
function that every present dependency edge strictly decreases — dangling
dependency ids are unconstrained, i.e. ignored rather than fatal) with
distinct task ids, every task appears in the scheduler's output after all
of its present dependencies.  On dependency-free inputs the output is
exactly the ascending `(priority, id)` sort, which exhibits the sorted,
reproducibly tie-broken visitation order; and a task whose `depends_on`
names only absent ids is emitted untouched. -/
theorem scheduler_topological_order :
    (∀ (tasks : List OTask) (rank : String → ℕ),
      (ids tasks).Nodup →
      (∀ t ∈ tasks, ∀ d ∈ t.depends_on, d ∈ ids tasks → rank d < rank t.id) →
      ∀ (i : ℕ) (t : OTask), (order_tasks tasks)[i]? = some t →
        ∀ d ∈ t.depends_on, d ∈ ids tasks →
        d ∈ ((order_tasks tasks).take i).map OTask.id) ∧
    (∀ tasks : List OTask, (∀ t ∈ tasks, t.depends_on = []) → (ids tasks).Nodup →
      order_tasks tasks = sortByLe taskLe tasks) ∧
    order_tasks [⟨"G", "", "", 5, ["ghost"]⟩] = [⟨"G", "", "", 5, ["ghost"]⟩] :=
  ⟨fun tasks rank hids hrank => order_tasks_topological tasks rank hids hrank,
    fun tasks hdeps hids => order_tasks_no_deps tasks hdeps hids,
    by decide⟩

open Orchestrator in
/-- Witness for `scheduler_topological_order` at a concrete acyclic
input: the dependency `"B"` of task `A` appears before `A`. -/
theorem scheduler_topological_order_witness :
    "B" ∈ ((order_tasks [⟨"A", "", "", 1, ["B"]⟩, ⟨"B", "", "", 2, []⟩]).take 1).map
      OTask.id :=
  scheduler_topological_order.1 [⟨"A", "", "", 1, ["B"]⟩, ⟨"B", "", "", 2, []⟩]
    (fun s => if s = "B" then 0 else 1) (by decide) (by decide) 1
    ⟨"A", "", "", 1, ["B"]⟩ (by decide) "B" (by decide) (by decide)

open Orchestrator in
/-- **C2**.  For every task set with distinct ids (the run invariant),
`_order_tasks` returns a permutation of the input — even in the presence
of dependency cycles; on the two-task cycle `{A depends_on [B], B
depends_on [A]}` it emits both tasks exactly once, logs a cycle warning
and does not raise (the model is a total function). -/
theorem scheduler_output_permutation :
    (∀ tasks : List OTask, (ids tasks).Nodup → (order_tasks tasks).Perm tasks) ∧
    (order_tasks [⟨"A", "", "", 1, ["B"]⟩, ⟨"B", "", "", 2, ["A"]⟩]).count
        (⟨"A", "", "", 1, ["B"]⟩ : OTask) = 1 ∧
    (order_tasks [⟨"A", "", "", 1, ["B"]⟩, ⟨"B", "", "", 2, ["A"]⟩]).count
        (⟨"B", "", "", 2, ["A"]⟩ : OTask) = 1 ∧
    (order_tasks_state [⟨"A", "", "", 1, ["B"]⟩, ⟨"B", "", "", 2, ["A"]⟩]).warnings ≠ [] :=
  ⟨fun tasks h => order_tasks_perm tasks h, by decide, by decide, by decide⟩

open Orchestrator in
/-- Witness for `scheduler_output_permutation` at a concrete cyclic
input. -/
theorem scheduler_output_permutation_witness :
    (order_tasks [⟨"A", "", "", 1, ["B"]⟩, ⟨"B", "", "", 2, ["A"]⟩]).Perm
      [⟨"A", "", "", 1, ["B"]⟩, ⟨"B", "", "", 2, ["A"]⟩] :=
  scheduler_output_permutation.1 _ (by decide)

/-! ## Scenario A (claim C4) -/

/-- The `method` entry of a success validation dictionary. -/
def Validation.methodOf : Validation → Option String
  | .stats _ m _ _ _ _ _ _ _ _ => some m
  | .error _ => none

/-- The `relative_change_pct` entry of a success validation dictionary. -/
def Validation.relOf : Validation → Option ℚ
  | .stats _ _ _ _ rel _ _ _ _ _ => some rel
  | .error _ => none

/-- The `effect_size` entry of a success validation dictionary. -/
def Validation.effectOf : Validation → Option EffectSizeRepr
  | .stats _ _ _ _ _ _ e _ _ _ => some e
  | .error _ => none

/-- Success-path characterization of `validate`: with data present and
the chosen method returning a p-value, the validation dictionary and the
status are the computed statistics. -/
theorem validate_success_fields (cfg : EvalConfig) (oracle : EvaluatorAgent.StatsOracle)
    (hyp : Hypothesis) (agent : DataAgentModel) (values : List ℚ) (pm : ℚ × String)
    (hpr : EvaluatorAgent.prepare_series agent "all_campaigns" "ctr" = (values, none))
    (hlen : 2 ≤ values.length)
    (hm : EvaluatorAgent.choose_method cfg oracle
      (EvaluatorAgent.split_baseline_test values).1
      (EvaluatorAgent.split_baseline_test values).2 = .ok pm) :
    (EvaluatorAgent.validate cfg oracle hyp agent).validation =
      .stats "ctr" pm.2
        (if 0 < (EvaluatorAgent.split_baseline_test values).1.length
          then mean (EvaluatorAgent.split_baseline_test values).1 else 0)
        (if 0 < (EvaluatorAgent.split_baseline_test values).2.length
          then mean (EvaluatorAgent.split_baseline_test values).2 else 0)
        (((if 0 < (EvaluatorAgent.split_baseline_test values).2.length
              then mean (EvaluatorAgent.split_baseline_test values).2 else 0)
            - (if 0 < (EvaluatorAgent.split_baseline_test values).1.length
              then mean (EvaluatorAgent.split_baseline_test values).1 else 0))
          / max (1 / 1000000000)
            (if 0 < (EvaluatorAgent.split_baseline_test values).1.length
              then mean (EvaluatorAgent.split_baseline_test values).1 else 0) * 100)
        pm.1
        (cohen_d (EvaluatorAgent.split_baseline_test values).1
          (EvaluatorAgent.split_baseline_test values).2)
        (EvaluatorAgent.split_baseline_test values).1.length
        (EvaluatorAgent.split_baseline_test values).2.length
        (simple_change_point values cfg.rolling_window_days) ∧
    (EvaluatorAgent.validate cfg oracle hyp agent).status =
      EvaluatorAgent.decide_status cfg pm.1
        (((if 0 < (EvaluatorAgent.split_baseline_test values).2.length
              then mean (EvaluatorAgent.split_baseline_test values).2 else 0)
            - (if 0 < (EvaluatorAgent.split_baseline_test values).1.length
              then mean (EvaluatorAgent.split_baseline_test values).1 else 0))
          / max (1 / 1000000000)
            (if 0 < (EvaluatorAgent.split_baseline_test values).1.length
              then mean (EvaluatorAgent.split_baseline_test values).1 else 0) * 100)
        (cohen_d (EvaluatorAgent.split_baseline_test values).1
          (EvaluatorAgent.split_baseline_test values).2)
        ((EvaluatorAgent.split_baseline_test values).1.length
          + (EvaluatorAgent.split_baseline_test values).2.length) := by
  unfold EvaluatorAgent.validate
  dsimp only
  rw [hpr]
  dsimp only
  rw [if_neg (by
    simp only [Option.isSome_none, Bool.false_eq_true, false_or, not_lt]
    exact hlen)]
  rw [hm]
  exact ⟨rfl, rfl⟩

/-- Scenario A of the spec: twenty points of `0.10` followed by twenty
points of `0.04`. -/
def seriesA : List ℚ := List.replicate 20 (1/10) ++ List.replicate 20 (1/25)

/-- The baseline segment the 70/30 chronological split actually produces
on `seriesA`: the first `max(1, ⌊0.7·40⌋) = 28` points — twenty `0.10`s
and eight `0.04`s, not the first twenty points. -/
def blA : List ℚ := List.replicate 20 (1/10) ++ List.replicate 8 (1/25)

/-- The test segment of the split: the last 12 points. -/
def tsA : List ℚ := List.replicate 12 (1/25)

/-- A provider serving `seriesA` for every query. -/
def agentA : DataAgentModel := fun _ _ => .frame seriesA

theorem splitA : EvaluatorAgent.split_baseline_test seriesA = (blA, tsA) := rfl

theorem mean_blA : mean blA = 29/350 := by
  unfold blA mean
  simp [List.sum_append, List.sum_replicate, nsmul_eq_mul, List.length_append,
    List.length_replicate]
  norm_num

theorem mean_tsA : mean tsA = 1/25 := by
  unfold tsA mean
  simp [List.sum_replicate, nsmul_eq_mul, List.length_replicate]
  norm_num

theorem sampleVar_blA : sampleVar blA = 2/2625 := by
  unfold sampleVar
  rw [mean_blA]
  unfold blA
  simp [List.map_append, List.map_replicate, List.sum_append, List.sum_replicate,
    nsmul_eq_mul, List.length_append, List.length_replicate]
  norm_num

theorem pooled_var_A : pooled_var blA tsA = 9/16625 := by
  unfold pooled_var
  dsimp only
  rw [if_pos (by decide : 1 < blA.length), if_pos (by decide : 1 < tsA.length)]
  rw [sampleVar_blA, show sampleVar tsA = 0 from sampleVar_replicate 12 (1/25)]
  have h1 : (blA.length : ℚ) = 28 := by
    rw [show blA.length = 28 from by decide]
    norm_num
  have h2 : (tsA.length : ℚ) = 12 := by
    rw [show tsA.length = 12 from by decide]
    norm_num
  rw [h1, h2]
  rw [max_eq_right (by norm_num : (1 : ℚ) ≤ 28 + 12 - 2)]
  norm_num

theorem mean_diff_A : mean tsA - mean blA = -3/70 := by
  rw [mean_blA, mean_tsA]
  norm_num

theorem cohen_d_A : cohen_d blA tsA = ⟨-1, 16625/4900⟩ := by
  unfold cohen_d
  rw [if_neg (by decide : ¬(blA.length + tsA.length ≤ 2))]
  rw [if_neg (by rw [pooled_var_A]; norm_num)]
  rw [mean_diff_A, pooled_var_A]
  refine congrArg₂ EffectSizeRepr.mk ?_ ?_
  · rw [Int.sign_eq_neg_one_iff_neg, Rat.num_neg]
    norm_num
  · norm_num

/-- Full evaluation of `validate` on scenario A for an arbitrary t-test
p-value answer: the method is the t-test (both segments have at least 10
points), and the computed statistics are the exact rationals of the 28/12
split. -/
theorem scenario_a_eval (oracle : EvaluatorAgent.StatsOracle) (p : ℚ) (hyp : Hypothesis)
    (hok : oracle.ttest_p blA tsA = .ok p) :
    (EvaluatorAgent.validate {} oracle hyp agentA).validation =
      .stats "ctr" "t-test" (29/350) (1/25) (-1500/29) p ⟨-1, 16625/4900⟩ 28 12
        (simple_change_point seriesA 7) ∧
    (EvaluatorAgent.validate {} oracle hyp agentA).status =
      EvaluatorAgent.decide_status {} p (-1500/29) ⟨-1, 16625/4900⟩ 40 := by
  have hm : EvaluatorAgent.choose_method {} oracle
      (EvaluatorAgent.split_baseline_test seriesA).1
      (EvaluatorAgent.split_baseline_test seriesA).2 = .ok (p, "t-test") := by
    rw [splitA]
    unfold EvaluatorAgent.choose_method
    rw [if_pos ⟨by decide, by decide⟩, hok]
    rfl
  have hfields := validate_success_fields {} oracle hyp agentA seriesA (p, "t-test")
    rfl (by decide) hm
  rw [splitA] at hfields
  dsimp only at hfields
  rw [if_pos (by decide : 0 < blA.length), if_pos (by decide : 0 < tsA.length),
    mean_blA, mean_tsA, cohen_d_A] at hfields
  rw [show ((1 : ℚ)/25 - 29/350) / max ((1 : ℚ)/1000000000) (29/350) * 100 = -1500/29 from by
    rw [max_eq_right (by norm_num)]
    norm_num] at hfields
  rw [show blA.length = 28 from by decide, show tsA.length = 12 from by decide] at hfields
  exact hfields

open EvaluatorAgent in
/-- **C4** (amended).  On the series of twenty `0.10`s followed by twenty
`0.04`s, `validate` selects `method = "t-test"` (the 70/30 split yields
segments of 28 and 12 points, both at least `min_samples_for_ttest`),
computes an effect size of large negative magnitude (`sign = −1`,
`d² = 16625/4900 ≥ 0.8²`), computes `relative_change_pct = −1500/29 ≈
−51.7` (not ≈ −60: the baseline of the split is the first 28 points, a
mix of `0.10`s and `0.04`s), and — whenever the external t-test p-value
is below `0.01`, as it numerically is (`≈ 5·10⁻⁹`) — returns
`status = "VALIDATED"` by the strong-evidence rule. -/
theorem scenario_a_ttest_validated :
    ∀ (oracle : StatsOracle) (p : ℚ) (hyp : Hypothesis),
      oracle.ttest_p blA tsA = .ok p → p < 1/100 →
      ((validate {} oracle hyp agentA).validation).methodOf = some "t-test" ∧
      ((validate {} oracle hyp agentA).validation).relOf = some (-1500/29) ∧
      ((validate {} oracle hyp agentA).validation).effectOf =
        some ⟨-1, 16625/4900⟩ ∧
      ((⟨-1, 16625/4900⟩ : EffectSizeRepr).sign = -1 ∧
        (8/10 : ℚ)^2 ≤ (⟨-1, (16625 : ℚ)/4900⟩ : EffectSizeRepr).sq) ∧
      (validate {} oracle hyp agentA).status = "VALIDATED" := by
  intro oracle p hyp hok hp
  obtain ⟨h1, h2⟩ := scenario_a_eval oracle p hyp hok
  refine ⟨by rw [h1]; rfl, by rw [h1]; rfl, by rw [h1]; rfl, ⟨rfl, by norm_num⟩, ?_⟩
  rw [h2]
  unfold decide_status
  rw [if_pos ⟨hp, by norm_num, by norm_num⟩]

open EvaluatorAgent in
/-- Counterexample to **C4** as stated: on scenario A the relative change
is exactly `−1500/29 ≈ −51.7` — more than 8 percentage points away from
the claimed ≈ −60 (which would require the baseline to be the first
twenty points; the code's 70/30 split gives 28). -/
theorem scenario_a_relative_change_not_sixty :
    ((validate {} ⟨fun _ _ => .ok 0, fun _ _ => []⟩
        ⟨"h1", "ctr dropped", some "creative_fatigue", 1/2, [], []⟩ agentA).validation).relOf
      = some (-1500/29) ∧
    ¬(|(-1500/29 : ℚ) - (-60)| ≤ 8) := by
  constructor
  · rw [(scenario_a_eval ⟨fun _ _ => .ok 0, fun _ _ => []⟩ 0
      ⟨"h1", "ctr dropped", some "creative_fatigue", 1/2, [], []⟩ rfl).1]
    rfl
  · rw [show (-1500/29 : ℚ) - (-60) = 240/29 from by norm_num,
      abs_of_pos (by norm_num : (0 : ℚ) < 240/29)]
    norm_num

open EvaluatorAgent in
/-- Witness for `scenario_a_ttest_validated` at a concrete oracle
answering `p = 1/200`. -/
theorem scenario_a_ttest_validated_witness :
    (validate {} ⟨fun _ _ => .ok (1/200), fun _ _ => []⟩
        ⟨"h4", "ctr dropped after day 20", some "creative_fatigue", 6/10, [], []⟩
        agentA).status = "VALIDATED" :=
  (scenario_a_ttest_validated ⟨fun _ _ => .ok (1/200), fun _ _ => []⟩ (1/200)
    ⟨"h4", "ctr dropped after day 20", some "creative_fatigue", 6/10, [], []⟩
    rfl (by norm_num)).2.2.2.2

end Kasparro
